import Mathlib

/-!
Shallow embedding of the storage abstraction layer of `go-raid`
(a persistent-identifier registry with four storage drivers), together
with proofs about the behavioural claims of its specification.

The embedding covers:
* the record model (`internal/models/raid.go`),
* the repository contract and error taxonomy (`internal/storage/repository.go`),
* the local-file driver (`internal/storage/file/file.go`, `FileStorage`),
* the git overlay driver (`internal/storage/file`, `GitStorage`),
* the CockroachDB driver (`internal/storage/cockroach`, `CockroachStorage`),
* the FoundationDB driver (`internal/storage/fdb`, `FDBStorage`).

Stateful Go methods become pure functions from an explicit state to a
result paired with the successor state.  Wall-clock reads (`time.Now()`)
become explicit numeric arguments.  Filesystem / SQL / KV contents become
association lists.  Opaque JSON payload content that the storage layer
never interprets is collapsed into a `payload` string field, while the
payload fields the layer does read (access type id, contributor ids,
organisation ids) are kept as structured fields.
-/

namespace GoRaid

/-! ### Generic association-list helpers

The drivers keep their persistent contents (files, SQL rows, KV pairs)
in association lists.  `insertA` overwrites in place when the key is
present and appends otherwise, matching both "overwrite the file at this
path" and "set the value at this key" semantics. -/

def lookupA {κ α : Type} [DecidableEq κ] (k : κ) : List (κ × α) → Option α
  | [] => none
  | (k', v) :: rest => if k' = k then some v else lookupA k rest

def insertA {κ α : Type} [DecidableEq κ] (k : κ) (v : α) : List (κ × α) → List (κ × α)
  | [] => [(k, v)]
  | (k', v') :: rest => if k' = k then (k, v) :: rest else (k', v') :: insertA k v rest

def eraseA {κ α : Type} [DecidableEq κ] (k : κ) (l : List (κ × α)) : List (κ × α) :=
  l.filter (fun e => decide (e.1 ≠ k))

/-! ### Insertion sort

Directory listings (`os.ReadDir`, `filepath.Walk`), SQL `ORDER BY` and
FoundationDB range scans all present their contents in sorted order.  We
model that with a structurally recursive insertion sort, which the kernel
can evaluate on concrete inputs.  For the key orders used here the sort
keys are pairwise distinct, so any correct sort yields the same list. -/

def insSorted {α : Type} (le : α → α → Bool) (a : α) : List α → List α
  | [] => [a]
  | b :: bs => if le a b then a :: b :: bs else b :: insSorted le a bs

def isort {α : Type} (le : α → α → Bool) : List α → List α
  | [] => []
  | a :: as => insSorted le a (isort le as)

/-! ### Decimal rendering

Both counter-based drivers render minted suffixes with `fmt.Sprintf`
(format verb `%d`), i.e. as the decimal digit string of the counter.
`natToDec` is that rendering, by structural recursion on a fuel bound so
that the kernel can evaluate it; `natToDec_injective` is what "distinct
counters give distinct suffix strings" rests on. -/

def digitsRevAux : Nat → Nat → List Nat
  | 0, _ => []
  | fuel + 1, n => if n = 0 then [] else n % 10 :: digitsRevAux fuel (n / 10)

def digitsRev (n : Nat) : List Nat := digitsRevAux n n

def ofDigitsRev : List Nat → Nat
  | [] => 0
  | d :: ds => d + 10 * ofDigitsRev ds

def natToDecL (n : Nat) : List Char :=
  if n = 0 then [Nat.digitChar 0] else (digitsRev n).reverse.map Nat.digitChar

def natToDec (n : Nat) : String := String.mk (natToDecL n)

/-! ### Byte order on strings

`os.ReadDir` and `filepath.Walk` present entries sorted by file name
(byte order, which on the names used here coincides with code-point
order); FoundationDB range reads are sorted by key bytes. -/

def lexLtB : List Char → List Char → Bool
  | [], [] => false
  | [], _ :: _ => true
  | _ :: _, [] => false
  | a :: as, b :: bs =>
      if a.toNat < b.toNat then true
      else if b.toNat < a.toNat then false
      else lexLtB as bs

def strLtB (a b : String) : Bool := lexLtB a.data b.data

def strLeB (a b : String) : Bool := !(strLtB b a)

/-! ### The record model

Embeds `internal/models/raid.go` and the filter/error types of
`internal/storage/repository.go`.

`Pid` is the parsed `(prefix, suffix)` pair of an identifier.  The Go
code keeps the identifier as an URL `https://raid.org/<p>/<s>` and
re-parses it with `parseRAiDIdentifier`; for well-formed identifiers
(the only ones the claims exercise) parsing is the identity on the
pair, so the embedding stores the parsed pair directly, with `none`
standing for a nil `Identifier` or an empty `Identifier.ID`.

The storage layer reads only these parts of a `models.RAiD`:
`Identifier.ID`, `Identifier.Version`, `Identifier.Owner.ServicePoint`,
`Metadata.Created/Updated`, `Access.Type.ID`, and the `ID` fields of the
`Contributor` and `Organisation` slices.  Everything else is an opaque
document the layer round-trips untouched, collapsed here into `payload`.
Timestamps are modelled as naturals (nanoseconds since the epoch). -/

abbrev Pid := String × String

inductive StorageErr : Type where
  | notFound
  | alreadyExists
  | invalidVersion
  | accessDenied
  | wrapped (msg : String)
deriving DecidableEq

instance {ε α : Type} [DecidableEq ε] [DecidableEq α] : DecidableEq (Except ε α) :=
  fun a b =>
    match a, b with
    | Except.error e1, Except.error e2 =>
        if h : e1 = e2 then isTrue (by rw [h])
        else isFalse (by intro hh; cases hh; exact h rfl)
    | Except.ok v1, Except.ok v2 =>
        if h : v1 = v2 then isTrue (by rw [h])
        else isFalse (by intro hh; cases hh; exact h rfl)
    | Except.error _, Except.ok _ => isFalse (by intro hh; cases hh)
    | Except.ok _, Except.error _ => isFalse (by intro hh; cases hh)

structure RAiD where
  ident : Option Pid := none
  version : Nat := 0
  ownerServicePoint : Int := 0
  created : Nat := 0
  updated : Nat := 0
  accessTypeID : Option String := none
  contributor : List String := []
  organisation : List String := []
  payload : String := ""
deriving DecidableEq

/-- Projection to the payload parts `createRecord`/`update` never touch. -/
def RAiD.payloadFields (r : RAiD) :
    Option String × List String × List String × String :=
  (r.accessTypeID, r.contributor, r.organisation, r.payload)

structure ServicePoint where
  id : Int := 0
  pfx : String := ""
  payload : String := ""
deriving DecidableEq

structure RAiDFilter where
  contributorID : String := ""
  organisationID : String := ""
  limit : Nat := 0
  offset : Nat := 0
deriving DecidableEq

/-- Sentinel access-type id marking a record as open/public. -/
def openAccessTypeID : String := "https://vocabulary.raid.org/access.type.schema/82"

/-- Fixed default namespace used when no issuing point is named. -/
def defaultNamespace : String := "10.25.1.1"

/-- Attribute-membership filtering, shared verbatim by the file driver
(`FileStorage.applyFilters`) and the FoundationDB driver
(`fdb.applyFilters`): an empty filter id matches everything, otherwise
the id must occur among the record's contributor/organisation ids. -/
def applyFilters (raids : List RAiD) : Option RAiDFilter → List RAiD
  | none => raids
  | some f =>
      raids.filter fun r =>
        decide ((f.contributorID = "" ∨ f.contributorID ∈ r.contributor) ∧
          (f.organisationID = "" ∨ f.organisationID ∈ r.organisation))

/-! ### The local-file driver

Embeds `FileStorage` of `internal/storage/file/file.go`.  The data
directory becomes three association lists: `raids` for the current
record files `raids/<p>/<s>.json`, `history` for the per-pair history
files `raids/<p>/.history/<s>/v<n>.json`, and `deleted` for current
files renamed to `<s>.json.deleted` by `DeleteRAiD`.  `servicePoints`
and `idCounter` model the `servicepoints/<id>.json` files and the
in-memory service-point id counter.  `tMint`/`tNow` stand for the
`time.Now()` reads.  Path sanitisation replaces problem characters by
an underscore exactly as `sanitizePath` does; the map keys stay the
unsanitised pairs, which agrees with the file layout whenever
sanitisation is injective on the identifiers in use (it is on the
dotted-decimal namespaces and decimal suffixes the system mints). -/

def sanitizeChar (c : Char) : Char :=
  if c ∈ ['/', '\\', ':', '*', '?', '\"', '<', '>', '|'] then '_' else c

def sanitizePath (s : String) : String := String.mk (s.data.map sanitizeChar)

namespace FileStorage

structure State where
  raids : List (Pid × RAiD) := []
  history : List ((Pid × Nat) × RAiD) := []
  deleted : List (Pid × RAiD) := []
  servicePoints : List (Int × ServicePoint) := []
  idCounter : Int := 1000
deriving DecidableEq

/-- Relative path of a current record file, the sort key of
`filepath.Walk`'s lexical traversal in `loadAllRAiDs`. -/
def raidPath (ps : Pid) : String :=
  sanitizePath ps.1 ++ "/" ++ sanitizePath ps.2 ++ ".json"

/-- File name of a history version file, the sort key of `os.ReadDir`
in `GetRAiDHistory`. -/
def histFileName (v : Nat) : String := "v" ++ natToDec v ++ ".json"

/-- The namespace-resolution block shared by `generateIdentifier`:
default namespace unless a positive service-point id resolves to a
service point with a non-empty namespace. -/
def resolvePfx (st : State) (servicePointID : Int) : String :=
  if 0 < servicePointID then
    match lookupA servicePointID st.servicePoints with
    | some sp => if sp.pfx ≠ "" then sp.pfx else defaultNamespace
    | none => defaultNamespace
  else defaultNamespace

/-- Embeds `FileStorage.generateIdentifier`: the resolved namespace and
a suffix rendered from the `time.Now().UnixNano()` read. -/
def generateIdentifier (st : State) (servicePointID : Int) (tMint : Nat) :
    String × String :=
  (resolvePfx st servicePointID, natToDec tMint)

/-- Embeds `FileStorage.CreateRAiD`: mint an identifier when absent,
fail with `AlreadyExists` when the current record file exists, else set
metadata, default the version to 1 and write the current file. -/
def CreateRAiD (st : State) (raid0 : RAiD) (tMint tNow : Nat) :
    Except StorageErr RAiD × State :=
  let raid :=
    match raid0.ident with
    | none =>
        { raid0 with ident := some (generateIdentifier st raid0.ownerServicePoint tMint) }
    | some _ => raid0
  match raid.ident with
  | none => (Except.error (StorageErr.wrapped "invalid RAiD identifier format"), st)
  | some ps =>
      if (lookupA ps st.raids).isSome then
        (Except.error StorageErr.alreadyExists, st)
      else
        let raid1 := { raid with created := tNow, updated := tNow }
        let raid2 := if raid1.version = 0 then { raid1 with version := 1 } else raid1
        (Except.ok raid2, { st with raids := insertA ps raid2 st.raids })

/-- Embeds `FileStorage.GetRAiD` (`loadRAiD` of the current file). -/
def GetRAiD (st : State) (ps : Pid) : Except StorageErr RAiD :=
  match lookupA ps st.raids with
  | none => Except.error StorageErr.notFound
  | some r => Except.ok r

/-- Embeds `FileStorage.GetRAiDVersion`: load the current file first,
return it if the version matches, otherwise look in the history dir. -/
def GetRAiDVersion (st : State) (ps : Pid) (version : Nat) :
    Except StorageErr RAiD :=
  match lookupA ps st.raids with
  | none => Except.error StorageErr.notFound
  | some cur =>
      if cur.version = version then Except.ok cur
      else
        match lookupA (ps, version) st.history with
        | none => Except.error StorageErr.notFound
        | some r => Except.ok r

/-- Embeds `FileStorage.UpdateRAiD`: load the current record, copy it
into the history dir under its version number, then overwrite the
current file with the bumped version. -/
def UpdateRAiD (st : State) (ps : Pid) (raid : RAiD) (tNow : Nat) :
    Except StorageErr RAiD × State :=
  match lookupA ps st.raids with
  | none => (Except.error StorageErr.notFound, st)
  | some existing =>
      let raid1 := { raid with created := existing.created, updated := tNow,
                               version := existing.version + 1 }
      (Except.ok raid1,
        { st with history := insertA (ps, existing.version) existing st.history,
                  raids := insertA ps raid1 st.raids })

/-- Embeds `FileStorage.GetRAiDHistory`: the current record first, then
the history-directory files in `os.ReadDir`'s file-name order. -/
def GetRAiDHistory (st : State) (ps : Pid) : Except StorageErr (List RAiD) :=
  match lookupA ps st.raids with
  | none => Except.error StorageErr.notFound
  | some cur =>
      let entries := st.history.filter fun e => decide (e.1.1 = ps)
      let entries :=
        isort (fun a b => strLeB (histFileName a.1.2) (histFileName b.1.2)) entries
      Except.ok (cur :: entries.map Prod.snd)

/-- Embeds `FileStorage.DeleteRAiD`: rename the current file to a
`.deleted` sibling.  When no current file exists, `os.Rename` fails and
the raw `*LinkError` is returned unclassified — not `ErrNotFound`. -/
def DeleteRAiD (st : State) (ps : Pid) : Except StorageErr Unit × State :=
  match lookupA ps st.raids with
  | none =>
      (Except.error (StorageErr.wrapped "rename: no such file or directory"), st)
  | some cur =>
      (Except.ok (), { st with raids := eraseA ps st.raids,
                               deleted := insertA ps cur st.deleted })

/-- Embeds `FileStorage.ListRAiDs`: walk all current record files in
lexical path order, apply the attribute filters, then the pagination
slices guarded by `offset/limit < len`. -/
def ListRAiDs (st : State) (filter : Option RAiDFilter) : List RAiD :=
  let raids := (isort (fun a b => strLeB (raidPath a.1) (raidPath b.1)) st.raids).map
    Prod.snd
  let filtered := applyFilters raids filter
  match filter with
  | none => filtered
  | some f =>
      let filtered :=
        if 0 < f.offset ∧ f.offset < filtered.length then filtered.drop f.offset
        else filtered
      if 0 < f.limit ∧ f.limit < filtered.length then filtered.take f.limit
      else filtered

/-- Embeds `FileStorage.ListPublicRAiDs`: `ListRAiDs`, then keep only
records whose access type is the open sentinel. -/
def ListPublicRAiDs (st : State) (filter : Option RAiDFilter) : List RAiD :=
  (ListRAiDs st filter).filter fun r => decide (r.accessTypeID = some openAccessTypeID)

/-- Embeds `FileStorage.CreateServicePoint`: assign the next counter id
when unset, fail with `AlreadyExists` when the file exists. -/
def CreateServicePoint (st : State) (sp0 : ServicePoint) :
    Except StorageErr ServicePoint × State :=
  let next := st.idCounter + 1
  let sp := if sp0.id = 0 then { sp0 with id := next } else sp0
  let st := if sp0.id = 0 then { st with idCounter := next } else st
  if (lookupA sp.id st.servicePoints).isSome then
    (Except.error StorageErr.alreadyExists, st)
  else
    (Except.ok sp, { st with servicePoints := insertA sp.id sp st.servicePoints })

/-- Embeds `FileStorage.UpdateServicePoint`. -/
def UpdateServicePoint (st : State) (id : Int) (sp0 : ServicePoint) :
    Except StorageErr ServicePoint × State :=
  match lookupA id st.servicePoints with
  | none => (Except.error StorageErr.notFound, st)
  | some _ =>
      let sp := { sp0 with id := id }
      (Except.ok sp, { st with servicePoints := insertA id sp st.servicePoints })

/-- Embeds `FileStorage.DeleteServicePoint`: `os.Remove`, whose error on
a missing file is again returned unclassified. -/
def DeleteServicePoint (st : State) (id : Int) : Except StorageErr Unit × State :=
  match lookupA id st.servicePoints with
  | none => (Except.error (StorageErr.wrapped "remove: no such file or directory"), st)
  | some _ => (Except.ok (), { st with servicePoints := eraseA id st.servicePoints })

end FileStorage

/-! ### The version-control overlay driver

Embeds `GitStorage` of `internal/storage/file/file.go` (git part).  It
wraps `FileStorage` unchanged; after a successful mutating operation it
shells out to `git add -A; git commit`, logging and swallowing any
commit failure.  The commit touches only the `.git` directory, never
the record files, so the storage state is the `FileStorage` state.  The
outcome of the shelled-out commit is the oracle argument `commitOk`;
each operation returns the underlying result paired with whether a
commit was attempted. -/

namespace GitStorage

structure Config where
  gitEnabled : Bool := true
  autoCommit : Bool := true
deriving DecidableEq

/-- Embeds `GitStorage.gitCommit` (`git add -A` then `git commit`),
with `commitOk` standing for the success of the shelled-out commands. -/
def gitCommit (commitOk : Bool) : Except StorageErr Unit :=
  if commitOk then Except.ok () else Except.error (StorageErr.wrapped "git commit failed")

/-- Embeds `GitStorage.CreateRAiD`: delegate, then best-effort commit. -/
def CreateRAiD (cfg : Config) (commitOk : Bool) (st : FileStorage.State)
    (raid : RAiD) (tMint tNow : Nat) :
    (Except StorageErr RAiD × FileStorage.State) × Bool :=
  let res := FileStorage.CreateRAiD st raid tMint tNow
  match res.1 with
  | Except.error _ => (res, false)
  | Except.ok _ =>
      if cfg.gitEnabled && cfg.autoCommit then
        match gitCommit commitOk with
        | _ => (res, true)
      else (res, false)

/-- Embeds `GitStorage.UpdateRAiD`: delegate, then best-effort commit. -/
def UpdateRAiD (cfg : Config) (commitOk : Bool) (st : FileStorage.State)
    (ps : Pid) (raid : RAiD) (tNow : Nat) :
    (Except StorageErr RAiD × FileStorage.State) × Bool :=
  let res := FileStorage.UpdateRAiD st ps raid tNow
  match res.1 with
  | Except.error _ => (res, false)
  | Except.ok _ =>
      if cfg.gitEnabled && cfg.autoCommit then
        match gitCommit commitOk with
        | _ => (res, true)
      else (res, false)

/-- Embeds `GitStorage.DeleteRAiD`: delegate, then best-effort commit. -/
def DeleteRAiD (cfg : Config) (commitOk : Bool) (st : FileStorage.State)
    (ps : Pid) : (Except StorageErr Unit × FileStorage.State) × Bool :=
  let res := FileStorage.DeleteRAiD st ps
  match res.1 with
  | Except.error _ => (res, false)
  | Except.ok _ =>
      if cfg.gitEnabled && cfg.autoCommit then
        match gitCommit commitOk with
        | _ => (res, true)
      else (res, false)

/-- Embeds `GitStorage.CreateServicePoint`. -/
def CreateServicePoint (cfg : Config) (commitOk : Bool) (st : FileStorage.State)
    (sp : ServicePoint) :
    (Except StorageErr ServicePoint × FileStorage.State) × Bool :=
  let res := FileStorage.CreateServicePoint st sp
  match res.1 with
  | Except.error _ => (res, false)
  | Except.ok _ =>
      if cfg.gitEnabled && cfg.autoCommit then
        match gitCommit commitOk with
        | _ => (res, true)
      else (res, false)

/-- Embeds `GitStorage.UpdateServicePoint`. -/
def UpdateServicePoint (cfg : Config) (commitOk : Bool) (st : FileStorage.State)
    (id : Int) (sp : ServicePoint) :
    (Except StorageErr ServicePoint × FileStorage.State) × Bool :=
  let res := FileStorage.UpdateServicePoint st id sp
  match res.1 with
  | Except.error _ => (res, false)
  | Except.ok _ =>
      if cfg.gitEnabled && cfg.autoCommit then
        match gitCommit commitOk with
        | _ => (res, true)
      else (res, false)

/-- Embeds `GitStorage.DeleteServicePoint`. -/
def DeleteServicePoint (cfg : Config) (commitOk : Bool) (st : FileStorage.State)
    (id : Int) : (Except StorageErr Unit × FileStorage.State) × Bool :=
  let res := FileStorage.DeleteServicePoint st id
  match res.1 with
  | Except.error _ => (res, false)
  | Except.ok _ =>
      if cfg.gitEnabled && cfg.autoCommit then
        match gitCommit commitOk with
        | _ => (res, true)
      else (res, false)

end GitStorage

/-! ### The CockroachDB driver

Embeds `CockroachStorage` of `internal/storage/cockroach`.  The `raids`
table becomes a list of rows in scan order (insertion order); the
`service_points` table a list plus the `SERIAL` sequence counter; the
`id_counters` table an association list.  The JSONB `data` column holds
the serialized record, modelled by a `RAiD` value.  SQL `LIMIT`/`OFFSET`
semantics (offset applied before limit, an overrunning offset yields an
empty result) become `List.drop`/`List.take`. -/

namespace CockroachStorage

structure Row where
  pfx : String
  sfx : String
  version : Nat
  isCurrent : Bool
  isDeleted : Bool
  data : RAiD
  createdAt : Nat
  updatedAt : Nat
deriving DecidableEq

structure State where
  raids : List Row := []
  servicePoints : List (Int × ServicePoint) := []
  counters : List (String × Nat) := []
  spSeq : Int := 0
deriving DecidableEq

/-- Predicate of the `WHERE prefix = $1 AND suffix = $2 AND is_current = true`
clause used by the existence check, update lookup and soft delete. -/
def Row.isCurrentOf (ps : Pid) (r : Row) : Bool :=
  decide (r.pfx = ps.1 ∧ r.sfx = ps.2 ∧ r.isCurrent = true)

/-- The row shape of the `INSERT INTO raids … VALUES ($1,$2,$3,true,$4,$5,$6)`
statements: `is_current = true`, `is_deleted` left to its `false` default. -/
def newRow (ps : Pid) (raid : RAiD) (createdAt updatedAt : Nat) : Row :=
  { pfx := ps.1, sfx := ps.2, version := raid.version, isCurrent := true,
    isDeleted := false, data := raid, createdAt := createdAt,
    updatedAt := updatedAt }

/-- The per-row effect of update's
`UPDATE raids SET is_current = false WHERE … is_current = true`. -/
def clearCurrent (ps : Pid) (x : Row) : Row :=
  if Row.isCurrentOf ps x then { x with isCurrent := false } else x

/-- The per-row effect of softDelete's
`UPDATE raids SET is_deleted = true WHERE … is_current = true`. -/
def markDeleted (ps : Pid) (x : Row) : Row :=
  if Row.isCurrentOf ps x then { x with isDeleted := true } else x

/-- Embeds `CockroachStorage.GetServicePoint` (data column lookup). -/
def GetServicePoint (st : State) (id : Int) : Except StorageErr ServicePoint :=
  match lookupA id st.servicePoints with
  | none => Except.error StorageErr.notFound
  | some sp => Except.ok sp

/-- Counter row name `raid_<namespace with dots replaced>` used by
`GenerateIdentifier`. -/
def counterName (p : String) : String :=
  "raid_" ++ String.mk (p.data.map fun c => if c = '.' then '_' else c)

/-- The namespace-resolution block of `GenerateIdentifier`. -/
def resolvePfx (st : State) (servicePointID : Int) : String :=
  if 0 < servicePointID then
    match GetServicePoint st servicePointID with
    | Except.ok sp => if sp.pfx ≠ "" then sp.pfx else defaultNamespace
    | Except.error _ => defaultNamespace
  else defaultNamespace

/-- Embeds `CockroachStorage.GenerateIdentifier`: resolve the namespace
from the service point, insert the counter row with value 1 when
absent, then atomically increment it and render the result. -/
def GenerateIdentifier (st : State) (servicePointID : Int) :
    (String × String) × State :=
  let p := resolvePfx st servicePointID
  let name := counterName p
  let base := match lookupA name st.counters with
    | none => 1
    | some v => v
  let value := base + 1
  ((p, natToDec value), { st with counters := insertA name value st.counters })

/-- Embeds `CockroachStorage.CreateRAiD`: mint when no identifier is
present (in its own committed transaction), set metadata, default the
version, then in one transaction check `is_current` existence and
insert the row with `is_current = true` and `is_deleted` defaulted. -/
def CreateRAiD (st : State) (raid0 : RAiD) (tNow : Nat) :
    Except StorageErr RAiD × State :=
  let minted :=
    match raid0.ident with
    | none =>
        let r := GenerateIdentifier st raid0.ownerServicePoint
        ({ raid0 with ident := some r.1 }, r.2)
    | some _ => (raid0, st)
  let raid := minted.1
  let st := minted.2
  match raid.ident with
  | none => (Except.error (StorageErr.wrapped "invalid RAiD identifier format"), st)
  | some ps =>
      let raid1 := { raid with created := tNow, updated := tNow }
      let raid2 := if raid1.version = 0 then { raid1 with version := 1 } else raid1
      if st.raids.any (Row.isCurrentOf ps) then
        (Except.error StorageErr.alreadyExists, st)
      else
        (Except.ok raid2, { st with raids := st.raids ++ [newRow ps raid2 tNow tNow] })

/-- Embeds `CockroachStorage.GetRAiD`: the data column of the row with
`is_current = true AND is_deleted = false`. -/
def GetRAiD (st : State) (ps : Pid) : Except StorageErr RAiD :=
  match st.raids.find? fun r =>
      decide (r.pfx = ps.1 ∧ r.sfx = ps.2 ∧ r.isCurrent = true ∧ r.isDeleted = false) with
  | none => Except.error StorageErr.notFound
  | some row => Except.ok row.data

/-- Embeds `CockroachStorage.GetRAiDVersion` (exact version lookup,
deleted or not, current or not). -/
def GetRAiDVersion (st : State) (ps : Pid) (version : Nat) :
    Except StorageErr RAiD :=
  match st.raids.find? fun r =>
      decide (r.pfx = ps.1 ∧ r.sfx = ps.2 ∧ r.version = version) with
  | none => Except.error StorageErr.notFound
  | some row => Except.ok row.data

/-- Embeds `CockroachStorage.UpdateRAiD`: one transaction that reads the
current row's version and `created_at`, flips `is_current` off on the
old row, and inserts the bumped row. -/
def UpdateRAiD (st : State) (ps : Pid) (raid : RAiD) (tNow : Nat) :
    Except StorageErr RAiD × State :=
  match st.raids.find? (Row.isCurrentOf ps) with
  | none => (Except.error StorageErr.notFound, st)
  | some cur =>
      let raid1 := { raid with created := cur.createdAt, updated := tNow,
                               version := cur.version + 1 }
      (Except.ok raid1,
        { st with raids := st.raids.map (clearCurrent ps) ++
            [newRow ps raid1 cur.createdAt tNow] })

/-- Embeds `CockroachStorage.ListRAiDs`: `WHERE is_current AND NOT
is_deleted` plus JSONB containment filters, then SQL `OFFSET`/`LIMIT`. -/
def ListRAiDs (st : State) (filter : Option RAiDFilter) : List RAiD :=
  let rows := st.raids.filter fun r =>
    decide (r.isCurrent = true ∧ r.isDeleted = false) &&
      (match filter with
       | none => true
       | some f =>
          decide ((f.contributorID = "" ∨ f.contributorID ∈ r.data.contributor) ∧
            (f.organisationID = "" ∨ f.organisationID ∈ r.data.organisation)))
  let rows :=
    match filter with
    | none => rows
    | some f =>
        let rows := if 0 < f.offset then rows.drop f.offset else rows
        if 0 < f.limit then rows.take f.limit else rows
  rows.map Row.data

/-- Embeds `CockroachStorage.ListPublicRAiDs`: current, non-deleted rows
whose access-type id is the open sentinel, then `OFFSET`/`LIMIT` (the
attribute filters are not applied on this path). -/
def ListPublicRAiDs (st : State) (filter : Option RAiDFilter) : List RAiD :=
  let rows := st.raids.filter fun r =>
    decide (r.isCurrent = true ∧ r.isDeleted = false ∧
      r.data.accessTypeID = some openAccessTypeID)
  let rows :=
    match filter with
    | none => rows
    | some f =>
        let rows := if 0 < f.offset then rows.drop f.offset else rows
        if 0 < f.limit then rows.take f.limit else rows
  rows.map Row.data

/-- Embeds `CockroachStorage.GetRAiDHistory`: all rows of the pair,
`ORDER BY version DESC`. -/
def GetRAiDHistory (st : State) (ps : Pid) : List RAiD :=
  let rows := st.raids.filter fun r => decide (r.pfx = ps.1 ∧ r.sfx = ps.2)
  (isort (fun a b => decide (b.version ≤ a.version)) rows).map Row.data

/-- Embeds `CockroachStorage.DeleteRAiD`: `UPDATE … SET is_deleted =
true WHERE … is_current = true`, `NotFound` when no row was affected.
Note it leaves `is_current` untouched. -/
def DeleteRAiD (st : State) (ps : Pid) : Except StorageErr Unit × State :=
  if st.raids.any (Row.isCurrentOf ps) then
    (Except.ok (), { st with raids := st.raids.map (markDeleted ps) })
  else
    (Except.error StorageErr.notFound, st)

/-- Embeds `CockroachStorage.CreateServicePoint`: `INSERT … RETURNING
id` with the `SERIAL` sequence assigning the id; the marshalled data
column is written before the returned id is patched in. -/
def CreateServicePoint (st : State) (sp : ServicePoint) :
    Except StorageErr ServicePoint × State :=
  let id := st.spSeq + 1
  (Except.ok { sp with id := id },
    { st with spSeq := id, servicePoints := insertA id sp st.servicePoints })

end CockroachStorage

/-! ### The FoundationDB driver

Embeds `FDBStorage` of `internal/storage/fdb`.  The keyspace under the
`raid` directory becomes three association lists for the tuple keys
`(p, s, "current")`, `(p, s, "version", n)` and `(p, s, "deleted")`;
the `counters` directory holds the tuple keys `("raid", namespace)` and
`("servicepoint_id")`, modelled by a string-pair key.  FDB range reads
return keys in tuple order, so `GetRAiDHistory` sorts version keys
ascending and `ListRAiDs` scans the whole directory in key order,
keeping the `"current"` entries.  The atomic-add counter is a 64-bit
little-endian value; additions wrap modulo `2^64` and the decoded Go
`int64` is its two's-complement reading. -/

namespace FDBStorage

structure State where
  current : List (Pid × RAiD) := []
  versions : List ((Pid × Nat) × RAiD) := []
  deleted : List (Pid × RAiD) := []
  counters : List ((String × String) × Nat) := []
  servicePoints : List (Int × ServicePoint) := []
deriving DecidableEq

/-- Rendering of the decoded int64 counter by `fmt.Sprintf`: values
with the top bit set print as negative two's-complement numbers. -/
def int64ToDec (n : Nat) : String :=
  if n < 2 ^ 63 then natToDec n else "-" ++ natToDec (2 ^ 64 - n)

/-- Embeds `FDBStorage.GetServicePoint`. -/
def GetServicePoint (st : State) (id : Int) : Except StorageErr ServicePoint :=
  match lookupA id st.servicePoints with
  | none => Except.error StorageErr.notFound
  | some sp => Except.ok sp

/-- The namespace-resolution block of `GenerateIdentifier`. -/
def resolvePfx (st : State) (servicePointID : Int) : String :=
  if 0 < servicePointID then
    match GetServicePoint st servicePointID with
    | Except.ok sp => if sp.pfx ≠ "" then sp.pfx else defaultNamespace
    | Except.error _ => defaultNamespace
  else defaultNamespace

/-- Embeds `FDBStorage.GenerateIdentifier`: resolve the namespace from
the service point, atomically add 1 to the per-namespace counter key
(64-bit little-endian, absent reads as zero), read it back and render
the decoded value. -/
def GenerateIdentifier (st : State) (servicePointID : Int) :
    (String × String) × State :=
  let p := resolvePfx st servicePointID
  let key := ("raid", p)
  let old := match lookupA key st.counters with
    | none => 0
    | some v => v
  let value := (old + 1) % 2 ^ 64
  ((p, int64ToDec value), { st with counters := insertA key value st.counters })

/-- Embeds `FDBStorage.CreateRAiD`: mint when no identifier is present
(in its own committed transaction), set metadata, default the version,
then in one transaction check the `"current"` key and set both the
`"current"` and the `"version"` key. -/
def CreateRAiD (st : State) (raid0 : RAiD) (tNow : Nat) :
    Except StorageErr RAiD × State :=
  let minted :=
    match raid0.ident with
    | none =>
        let r := GenerateIdentifier st raid0.ownerServicePoint
        ({ raid0 with ident := some r.1 }, r.2)
    | some _ => (raid0, st)
  let raid := minted.1
  let st := minted.2
  match raid.ident with
  | none => (Except.error (StorageErr.wrapped "invalid RAiD identifier format"), st)
  | some ps =>
      let raid1 := { raid with created := tNow, updated := tNow }
      let raid2 := if raid1.version = 0 then { raid1 with version := 1 } else raid1
      if (lookupA ps st.current).isSome then
        (Except.error StorageErr.alreadyExists, st)
      else
        (Except.ok raid2,
          { st with current := insertA ps raid2 st.current,
                    versions := insertA (ps, raid2.version) raid2 st.versions })

/-- Embeds `FDBStorage.GetRAiD` (the `"current"` key). -/
def GetRAiD (st : State) (ps : Pid) : Except StorageErr RAiD :=
  match lookupA ps st.current with
  | none => Except.error StorageErr.notFound
  | some r => Except.ok r

/-- Embeds `FDBStorage.GetRAiDVersion` (the `"version"` key). -/
def GetRAiDVersion (st : State) (ps : Pid) (version : Nat) :
    Except StorageErr RAiD :=
  match lookupA (ps, version) st.versions with
  | none => Except.error StorageErr.notFound
  | some r => Except.ok r

/-- Embeds `FDBStorage.UpdateRAiD`: one transaction that reads the
`"current"` key, bumps the version, and sets both the `"current"` and
the new `"version"` key. -/
def UpdateRAiD (st : State) (ps : Pid) (raid : RAiD) (tNow : Nat) :
    Except StorageErr RAiD × State :=
  match lookupA ps st.current with
  | none => (Except.error StorageErr.notFound, st)
  | some existing =>
      let raid1 := { raid with created := existing.created, updated := tNow,
                               version := existing.version + 1 }
      (Except.ok raid1,
        { st with current := insertA ps raid1 st.current,
                  versions := insertA (ps, raid1.version) raid1 st.versions })

/-- Embeds `FDBStorage.ListRAiDs`: range-scan the directory in key
order keeping the `"current"` entries, apply the attribute filters,
then the pagination slices guarded by `offset/limit < len`. -/
def ListRAiDs (st : State) (filter : Option RAiDFilter) : List RAiD :=
  let raids := (isort (fun a b =>
      strLtB a.1.1 b.1.1 || (a.1.1 == b.1.1 && strLeB a.1.2 b.1.2)) st.current).map
    Prod.snd
  let filtered := applyFilters raids filter
  match filter with
  | none => filtered
  | some f =>
      let filtered :=
        if 0 < f.offset ∧ f.offset < filtered.length then filtered.drop f.offset
        else filtered
      if 0 < f.limit ∧ f.limit < filtered.length then filtered.take f.limit
      else filtered

/-- Embeds `FDBStorage.ListPublicRAiDs`: `ListRAiDs`, then keep only
records whose access type is the open sentinel. -/
def ListPublicRAiDs (st : State) (filter : Option RAiDFilter) : List RAiD :=
  (ListRAiDs st filter).filter fun r => decide (r.accessTypeID = some openAccessTypeID)

/-- Embeds `FDBStorage.GetRAiDHistory`: range-scan the `"version"` keys
of the pair, which are returned in ascending version order. -/
def GetRAiDHistory (st : State) (ps : Pid) : List RAiD :=
  let entries := st.versions.filter fun e => decide (e.1.1 = ps)
  (isort (fun a b => decide (a.1.2 ≤ b.1.2)) entries).map Prod.snd

/-- Embeds `FDBStorage.DeleteRAiD`: move the `"current"` value to the
`"deleted"` key and clear `"current"`; `NotFound` when absent. -/
def DeleteRAiD (st : State) (ps : Pid) : Except StorageErr Unit × State :=
  match lookupA ps st.current with
  | none => (Except.error StorageErr.notFound, st)
  | some cur =>
      (Except.ok (),
        { st with deleted := insertA ps cur st.deleted,
                  current := eraseA ps st.current })

end FDBStorage

/-! ### Well-formedness and iteration helpers -/

/-- Well-formedness of a file-driver state: every current record file
holds a record whose parsed identifier is its own path key.  All states
produced by `CreateRAiD`/`UpdateRAiD` through the handler layer satisfy
this, since both store the record under its parsed identifier. -/
def FileStorage.WF (st : FileStorage.State) : Prop :=
  ∀ ps r, lookupA ps st.raids = some r → r.ident = some ps

/-- Well-formedness of an FDB-driver state, as for the file driver. -/
def FDBStorage.WF (st : FDBStorage.State) : Prop :=
  ∀ ps r, lookupA ps st.current = some r → r.ident = some ps

/-- Well-formedness of a CockroachDB state: each row's data column
carries the row's own key pair. -/
def CockroachStorage.WF (st : CockroachStorage.State) : Prop :=
  ∀ row ∈ st.raids, row.data.ident = some (row.pfx, row.sfx)

/-- Fold `UpdateRAiD` over a list of (payload, timestamp) pairs. -/
def FileStorage.applyUpdates (ps : Pid) :
    FileStorage.State → List (RAiD × Nat) → FileStorage.State
  | st, [] => st
  | st, (r, t) :: rest =>
      FileStorage.applyUpdates ps (FileStorage.UpdateRAiD st ps r t).2 rest

/-- Fold `UpdateRAiD` over a list of (payload, timestamp) pairs. -/
def CockroachStorage.applyUpdates (ps : Pid) :
    CockroachStorage.State → List (RAiD × Nat) → CockroachStorage.State
  | st, [] => st
  | st, (r, t) :: rest =>
      CockroachStorage.applyUpdates ps (CockroachStorage.UpdateRAiD st ps r t).2 rest

/-- Fold `UpdateRAiD` over a list of (payload, timestamp) pairs. -/
def FDBStorage.applyUpdates (ps : Pid) :
    FDBStorage.State → List (RAiD × Nat) → FDBStorage.State
  | st, [] => st
  | st, (r, t) :: rest =>
      FDBStorage.applyUpdates ps (FDBStorage.UpdateRAiD st ps r t).2 rest

/-! ### Concrete test fixtures

Small concrete stores used by the witness and counterexample theorems:
one record created under the default namespace, then updated once, then
soft-deleted, on each driver. -/

def psA : Pid := ("10.25.1.1", "a")

def raidP : RAiD := { ident := some psA, payload := "p" }

def raidQ : RAiD := { ident := some psA, payload := "q" }

/-- A submitted record carrying an explicit nonzero version. -/
def raidV2 : RAiD := { ident := some psA, version := 2, payload := "p" }

/-- The stored form of `raidP` after creation at time 7. -/
def raidP1 : RAiD := { ident := some psA, version := 1, created := 7,
                       updated := 7, payload := "p" }

/-- The stored form of `raidQ` after the update at time 9. -/
def raidQ2 : RAiD := { ident := some psA, version := 2, created := 7,
                       updated := 9, payload := "q" }

def fileSt1 : FileStorage.State := (FileStorage.CreateRAiD {} raidP 5 7).2

def fileSt2 : FileStorage.State := (FileStorage.UpdateRAiD fileSt1 psA raidQ 9).2

def fileSt3 : FileStorage.State := (FileStorage.DeleteRAiD fileSt2 psA).2

def crdbSt1 : CockroachStorage.State := (CockroachStorage.CreateRAiD {} raidP 7).2

def crdbSt2 : CockroachStorage.State :=
  (CockroachStorage.UpdateRAiD crdbSt1 psA raidQ 9).2

def crdbSt3 : CockroachStorage.State := (CockroachStorage.DeleteRAiD crdbSt2 psA).2

def fdbSt1 : FDBStorage.State := (FDBStorage.CreateRAiD {} raidP 7).2

def fdbSt2 : FDBStorage.State := (FDBStorage.UpdateRAiD fdbSt1 psA raidQ 9).2

def fdbSt3 : FDBStorage.State := (FDBStorage.DeleteRAiD fdbSt2 psA).2

/-! ### Library lemmas about the helper functions -/

theorem lookupA_insertA_self {κ α : Type} [DecidableEq κ] (k : κ) (v : α)
    (l : List (κ × α)) : lookupA k (insertA k v l) = some v := by
  induction l with
  | nil => simp [insertA, lookupA]
  | cons hd tl ih =>
      obtain ⟨k', v'⟩ := hd
      by_cases h : k' = k <;> simp [insertA, lookupA, h, ih]

theorem lookupA_insertA_ne {κ α : Type} [DecidableEq κ] {k k' : κ} (v : α)
    (l : List (κ × α)) (h : k ≠ k') :
    lookupA k' (insertA k v l) = lookupA k' l := by
  induction l with
  | nil => simp [insertA, lookupA, h]
  | cons hd tl ih =>
      obtain ⟨k0, v0⟩ := hd
      by_cases h0 : k0 = k
      · subst h0
        simp [insertA, lookupA, h]
      · simp only [insertA, if_neg h0, lookupA]
        by_cases h1 : k0 = k' <;> simp [h1, ih]

theorem lookupA_eraseA_self {κ α : Type} [DecidableEq κ] (k : κ)
    (l : List (κ × α)) : lookupA k (eraseA k l) = none := by
  induction l with
  | nil => simp [eraseA, lookupA]
  | cons hd tl ih =>
      obtain ⟨k0, v0⟩ := hd
      by_cases h0 : k0 = k
      · simpa [eraseA, h0] using ih
      · simpa [eraseA, lookupA, h0] using ih

theorem lookupA_eraseA_ne {κ α : Type} [DecidableEq κ] {k k' : κ}
    (l : List (κ × α)) (h : k ≠ k') :
    lookupA k' (eraseA k l) = lookupA k' l := by
  induction l with
  | nil => simp [eraseA]
  | cons hd tl ih =>
      obtain ⟨k0, v0⟩ := hd
      have hke : k ≠ k' := h
      by_cases h0 : k0 = k
      · subst h0
        have : k0 ≠ k' := h
        simp only [eraseA, List.filter_cons, decide_not, decide_eq_true_eq] at ih ⊢
        simp only [lookupA, if_neg this]
        simpa [eraseA] using ih
      · by_cases h1 : k0 = k'
        · subst h1
          simp only [eraseA, List.filter_cons] at ih ⊢
          simp [lookupA, h0, eraseA] at ih ⊢
        · simp only [eraseA, List.filter_cons] at ih ⊢
          simp only [lookupA]
          simp [lookupA, h0, h1, eraseA] at ih ⊢
          exact ih

theorem mem_insertA {κ α : Type} [DecidableEq κ] {k : κ} {v : α}
    {l : List (κ × α)} {e : κ × α} (he : e ∈ insertA k v l) :
    e = (k, v) ∨ e ∈ l := by
  induction l with
  | nil => simpa [insertA] using he
  | cons hd tl ih =>
      obtain ⟨k0, v0⟩ := hd
      by_cases h0 : k0 = k
      · simp only [insertA, if_pos h0, List.mem_cons] at he
        rcases he with h | h
        · exact Or.inl h
        · exact Or.inr (List.mem_cons_of_mem _ h)
      · simp only [insertA, if_neg h0, List.mem_cons] at he
        rcases he with h | h
        · exact Or.inr (by simp [h])
        · rcases ih h with h1 | h1
          · exact Or.inl h1
          · exact Or.inr (List.mem_cons_of_mem _ h1)

theorem mem_eraseA {κ α : Type} [DecidableEq κ] {k : κ}
    {l : List (κ × α)} {e : κ × α} (he : e ∈ eraseA k l) : e ∈ l := by
  exact List.mem_of_mem_filter he

theorem insSorted_perm {α : Type} (le : α → α → Bool) (a : α) (l : List α) :
    List.Perm (insSorted le a l) (a :: l) := by
  induction l with
  | nil => simp [insSorted]
  | cons b bs ih =>
      by_cases h : le a b
      · simp [insSorted, h]
      · simp only [insSorted, if_neg h]
        exact (List.Perm.cons b ih).trans (List.Perm.swap a b bs)

theorem isort_perm {α : Type} (le : α → α → Bool) (l : List α) :
    List.Perm (isort le l) l := by
  induction l with
  | nil => simp [isort]
  | cons a as ih =>
      exact (insSorted_perm le a (isort le as)).trans (List.Perm.cons a ih)

theorem mem_isort {α : Type} {le : α → α → Bool} {l : List α} {a : α} :
    a ∈ isort le l ↔ a ∈ l :=
  (isort_perm le l).mem_iff

theorem length_isort {α : Type} (le : α → α → Bool) (l : List α) :
    (isort le l).length = l.length :=
  (isort_perm le l).length_eq

theorem mem_insSorted {α : Type} {le : α → α → Bool} {a x : α} {l : List α} :
    x ∈ insSorted le a l ↔ x = a ∨ x ∈ l := by
  rw [(insSorted_perm le a l).mem_iff]
  simp

theorem pairwise_insSorted {α : Type} {le : α → α → Bool}
    (htot : ∀ a b, le a b = true ∨ le b a = true)
    (htrans : ∀ a b c, le a b = true → le b c = true → le a c = true)
    {a : α} {l : List α}
    (hl : List.Pairwise (fun x y => le x y = true) l) :
    List.Pairwise (fun x y => le x y = true) (insSorted le a l) := by
  induction l with
  | nil => simp [insSorted]
  | cons b bs ih =>
      rcases List.pairwise_cons.mp hl with ⟨hb, hbs⟩
      by_cases h : le a b
      · simp only [insSorted, if_pos h]
        refine List.pairwise_cons.mpr ⟨?_, hl⟩
        intro x hx
        rcases List.mem_cons.mp hx with rfl | hx
        · exact h
        · exact htrans a b x h (hb x hx)
      · simp only [insSorted, if_neg h]
        refine List.pairwise_cons.mpr ⟨?_, ih hbs⟩
        intro x hx
        rcases mem_insSorted.mp hx with rfl | hx
        · rcases htot x b with h1 | h1
          · exact absurd h1 (by simpa using h)
          · exact h1
        · exact hb x hx

theorem pairwise_isort {α : Type} {le : α → α → Bool}
    (htot : ∀ a b, le a b = true ∨ le b a = true)
    (htrans : ∀ a b c, le a b = true → le b c = true → le a c = true)
    (l : List α) :
    List.Pairwise (fun x y => le x y = true) (isort le l) := by
  induction l with
  | nil => simp [isort]
  | cons a as ih => exact pairwise_insSorted htot htrans ih

theorem ofDigitsRev_digitsRevAux (fuel : Nat) :
    ∀ n, n ≤ fuel → ofDigitsRev (digitsRevAux fuel n) = n := by
  induction fuel with
  | zero => intro n hn; interval_cases n; simp [digitsRevAux, ofDigitsRev]
  | succ fuel ih =>
      intro n hn
      by_cases h0 : n = 0
      · simp [digitsRevAux, h0, ofDigitsRev]
      · have hdiv : n / 10 ≤ fuel := by
          have := Nat.div_lt_self (Nat.pos_of_ne_zero h0) (by norm_num : 1 < 10)
          omega
        simp only [digitsRevAux, if_neg h0, ofDigitsRev, ih (n / 10) hdiv]
        omega

theorem ofDigitsRev_digitsRev (n : Nat) : ofDigitsRev (digitsRev n) = n :=
  ofDigitsRev_digitsRevAux n n le_rfl

theorem digitsRev_injective : Function.Injective digitsRev := by
  intro m n h
  have := ofDigitsRev_digitsRev m
  rw [h, ofDigitsRev_digitsRev] at this
  exact this.symm

theorem digitsRevAux_lt_ten (fuel : Nat) :
    ∀ n d, d ∈ digitsRevAux fuel n → d < 10 := by
  induction fuel with
  | zero => intro n d hd; simp [digitsRevAux] at hd
  | succ fuel ih =>
      intro n d hd
      by_cases h0 : n = 0
      · simp [digitsRevAux, h0] at hd
      · simp only [digitsRevAux, if_neg h0, List.mem_cons] at hd
        rcases hd with rfl | hd
        · exact Nat.mod_lt _ (by norm_num)
        · exact ih _ _ hd

theorem digitsRev_ne_nil {n : Nat} (hn : n ≠ 0) : digitsRev n ≠ [] := by
  unfold digitsRev
  cases n with
  | zero => exact absurd rfl hn
  | succ m => simp [digitsRevAux, hn]

theorem data_mk (l : List Char) : (String.mk l).data = l := rfl

theorem digitChar_inj_lt {a b : Nat} (ha : a < 10) (hb : b < 10)
    (h : Nat.digitChar a = Nat.digitChar b) : a = b := by
  interval_cases a <;> interval_cases b <;> simp_all [Nat.digitChar]

theorem map_digitChar_inj : ∀ (l1 l2 : List Nat), (∀ d ∈ l1, d < 10) →
    (∀ d ∈ l2, d < 10) → l1.map Nat.digitChar = l2.map Nat.digitChar → l1 = l2 := by
  intro l1
  induction l1 with
  | nil => intro l2 _ _ h; cases l2 <;> simp_all
  | cons a as ih =>
      intro l2 h1 h2 h
      cases l2 with
      | nil => simp at h
      | cons b bs =>
          simp only [List.map_cons, List.cons.injEq] at h
          have hab : a = b :=
            digitChar_inj_lt (h1 a (by simp)) (h2 b (by simp)) h.1
          have : as = bs :=
            ih bs (fun d hd => h1 d (by simp [hd])) (fun d hd => h2 d (by simp [hd])) h.2
          simp [hab, this]

theorem natToDecL_ne_zero {n : Nat} (hn : n ≠ 0) :
    natToDecL n = (digitsRev n).reverse.map Nat.digitChar := by
  simp [natToDecL, hn]

theorem natToDecL_pos_ne_singleton_zero {n : Nat} (hn : n ≠ 0) :
    natToDecL n ≠ [Nat.digitChar 0] := by
  intro h
  rw [natToDecL_ne_zero hn] at h
  rcases hx : (digitsRev n).reverse with _ | ⟨x, xs⟩
  · exact digitsRev_ne_nil hn (by simpa using congrArg List.reverse hx)
  · rw [hx] at h
    cases xs with
    | cons y ys => simp at h
    | nil =>
        simp only [List.map_cons, List.map_nil, List.cons.injEq, and_true] at h
        have hxmem : x ∈ digitsRev n := by
          have := congrArg List.reverse hx
          simp only [List.reverse_reverse, List.reverse_cons, List.reverse_nil,
            List.nil_append] at this
          simp [this]
        have hx10 : x < 10 := digitsRevAux_lt_ten n n x hxmem
        have hx0 : x = 0 := digitChar_inj_lt hx10 (by norm_num) h
        have hrev : digitsRev n = [x] := by
          have := congrArg List.reverse hx
          simpa using this
        have hzero := ofDigitsRev_digitsRev n
        rw [hrev, hx0] at hzero
        simp [ofDigitsRev] at hzero
        exact hn hzero.symm

theorem natToDecL_injective : Function.Injective natToDecL := by
  intro m n h
  by_cases hm : m = 0 <;> by_cases hn : n = 0
  · omega
  · exact absurd (by simpa [natToDecL, hm] using h.symm)
      (natToDecL_pos_ne_singleton_zero hn)
  · exact absurd (by simpa [natToDecL, hn] using h)
      (natToDecL_pos_ne_singleton_zero hm)
  · rw [natToDecL_ne_zero hm, natToDecL_ne_zero hn] at h
    have hrev := List.reverse_injective
      (map_digitChar_inj _ _
        (fun d hd => digitsRevAux_lt_ten m m d (by simpa using hd))
        (fun d hd => digitsRevAux_lt_ten n n d (by simpa using hd)) h)
    exact digitsRev_injective hrev

theorem natToDec_injective : Function.Injective natToDec := by
  intro m n h
  have hdata := congrArg String.data h
  rw [natToDec, natToDec, data_mk, data_mk] at hdata
  exact natToDecL_injective hdata

/-! ### Claim C9: the git overlay refines the file driver -/

/-- C9: every operation of the version-control overlay driver returns
exactly the wrapped local-file driver's record/error result and state
for the same input and state, whatever the outcome of the shelled-out
git commit; and a commit is attempted only when the underlying
operation succeeded (with auto-commit enabled). -/
theorem C9_git_overlay_refines_file_driver
    (cfg : GitStorage.Config) (commitOk : Bool) (st : FileStorage.State)
    (raid : RAiD) (ps : Pid) (sp : ServicePoint) (id : Int) (tMint tNow : Nat) :
    ((GitStorage.CreateRAiD cfg commitOk st raid tMint tNow).1 =
        FileStorage.CreateRAiD st raid tMint tNow ∧
      ((GitStorage.CreateRAiD cfg commitOk st raid tMint tNow).2 = true →
        ∃ v, (FileStorage.CreateRAiD st raid tMint tNow).1 = Except.ok v)) ∧
    ((GitStorage.UpdateRAiD cfg commitOk st ps raid tNow).1 =
        FileStorage.UpdateRAiD st ps raid tNow ∧
      ((GitStorage.UpdateRAiD cfg commitOk st ps raid tNow).2 = true →
        ∃ v, (FileStorage.UpdateRAiD st ps raid tNow).1 = Except.ok v)) ∧
    ((GitStorage.DeleteRAiD cfg commitOk st ps).1 = FileStorage.DeleteRAiD st ps ∧
      ((GitStorage.DeleteRAiD cfg commitOk st ps).2 = true →
        ∃ v, (FileStorage.DeleteRAiD st ps).1 = Except.ok v)) ∧
    ((GitStorage.CreateServicePoint cfg commitOk st sp).1 =
        FileStorage.CreateServicePoint st sp ∧
      ((GitStorage.CreateServicePoint cfg commitOk st sp).2 = true →
        ∃ v, (FileStorage.CreateServicePoint st sp).1 = Except.ok v)) ∧
    ((GitStorage.UpdateServicePoint cfg commitOk st id sp).1 =
        FileStorage.UpdateServicePoint st id sp ∧
      ((GitStorage.UpdateServicePoint cfg commitOk st id sp).2 = true →
        ∃ v, (FileStorage.UpdateServicePoint st id sp).1 = Except.ok v)) ∧
    ((GitStorage.DeleteServicePoint cfg commitOk st id).1 =
        FileStorage.DeleteServicePoint st id ∧
      ((GitStorage.DeleteServicePoint cfg commitOk st id).2 = true →
        ∃ v, (FileStorage.DeleteServicePoint st id).1 = Except.ok v)) := by
  refine ⟨⟨?_, ?_⟩, ⟨?_, ?_⟩, ⟨?_, ?_⟩, ⟨?_, ?_⟩, ⟨?_, ?_⟩, ⟨?_, ?_⟩⟩
  · cases h : (FileStorage.CreateRAiD st raid tMint tNow).1 with
    | error e => simp [GitStorage.CreateRAiD, h]
    | ok v =>
        by_cases hc : (cfg.gitEnabled && cfg.autoCommit) = true <;>
          simp [GitStorage.CreateRAiD, h, hc]
  · cases h : (FileStorage.CreateRAiD st raid tMint tNow).1 with
    | error e => simp [GitStorage.CreateRAiD, h]
    | ok v =>
        by_cases hc : (cfg.gitEnabled && cfg.autoCommit) = true <;>
          simp [GitStorage.CreateRAiD, h, hc]
  · cases h : (FileStorage.UpdateRAiD st ps raid tNow).1 with
    | error e => simp [GitStorage.UpdateRAiD, h]
    | ok v =>
        by_cases hc : (cfg.gitEnabled && cfg.autoCommit) = true <;>
          simp [GitStorage.UpdateRAiD, h, hc]
  · cases h : (FileStorage.UpdateRAiD st ps raid tNow).1 with
    | error e => simp [GitStorage.UpdateRAiD, h]
    | ok v =>
        by_cases hc : (cfg.gitEnabled && cfg.autoCommit) = true <;>
          simp [GitStorage.UpdateRAiD, h, hc]
  · cases h : (FileStorage.DeleteRAiD st ps).1 with
    | error e => simp [GitStorage.DeleteRAiD, h]
    | ok v =>
        by_cases hc : (cfg.gitEnabled && cfg.autoCommit) = true <;>
          simp [GitStorage.DeleteRAiD, h, hc]
  · cases h : (FileStorage.DeleteRAiD st ps).1 with
    | error e => simp [GitStorage.DeleteRAiD, h]
    | ok v =>
        by_cases hc : (cfg.gitEnabled && cfg.autoCommit) = true <;>
          simp [GitStorage.DeleteRAiD, h, hc]
  · cases h : (FileStorage.CreateServicePoint st sp).1 with
    | error e => simp [GitStorage.CreateServicePoint, h]
    | ok v =>
        by_cases hc : (cfg.gitEnabled && cfg.autoCommit) = true <;>
          simp [GitStorage.CreateServicePoint, h, hc]
  · cases h : (FileStorage.CreateServicePoint st sp).1 with
    | error e => simp [GitStorage.CreateServicePoint, h]
    | ok v =>
        by_cases hc : (cfg.gitEnabled && cfg.autoCommit) = true <;>
          simp [GitStorage.CreateServicePoint, h, hc]
  · cases h : (FileStorage.UpdateServicePoint st id sp).1 with
    | error e => simp [GitStorage.UpdateServicePoint, h]
    | ok v =>
        by_cases hc : (cfg.gitEnabled && cfg.autoCommit) = true <;>
          simp [GitStorage.UpdateServicePoint, h, hc]
  · cases h : (FileStorage.UpdateServicePoint st id sp).1 with
    | error e => simp [GitStorage.UpdateServicePoint, h]
    | ok v =>
        by_cases hc : (cfg.gitEnabled && cfg.autoCommit) = true <;>
          simp [GitStorage.UpdateServicePoint, h, hc]
  · cases h : (FileStorage.DeleteServicePoint st id).1 with
    | error e => simp [GitStorage.DeleteServicePoint, h]
    | ok v =>
        by_cases hc : (cfg.gitEnabled && cfg.autoCommit) = true <;>
          simp [GitStorage.DeleteServicePoint, h, hc]
  · cases h : (FileStorage.DeleteServicePoint st id).1 with
    | error e => simp [GitStorage.DeleteServicePoint, h]
    | ok v =>
        by_cases hc : (cfg.gitEnabled && cfg.autoCommit) = true <;>
          simp [GitStorage.DeleteServicePoint, h, hc]

/-- C9 witness: concrete overlay call with a failing commit still
returns the file driver's result. -/
theorem C9_git_overlay_refines_file_driver_witness :
    (GitStorage.CreateRAiD {} false {} raidP 5 7).1 =
      FileStorage.CreateRAiD {} raidP 5 7 ∧
    ((GitStorage.CreateRAiD {} false {} raidP 5 7).2 = true →
      ∃ v, (FileStorage.CreateRAiD {} raidP 5 7).1 = Except.ok v) :=
  (C9_git_overlay_refines_file_driver {} false {} raidP psA {} 0 5 7).1

/-! ### Claim C7: softDelete error taxonomy (code bug in the file driver) -/

/-- C7 evaluation at the failing input: soft-deleting a pair with no
current version yields `NotFound` on the CockroachDB and FoundationDB
drivers, but the file driver surfaces the raw rename error instead of
`NotFound`, contradicting the common error taxonomy. -/
theorem C7_delete_missing_pair_evaluation :
    FileStorage.DeleteRAiD {} psA =
      (Except.error (StorageErr.wrapped "rename: no such file or directory"), {}) ∧
    StorageErr.wrapped "rename: no such file or directory" ≠ StorageErr.notFound ∧
    CockroachStorage.DeleteRAiD {} psA = (Except.error StorageErr.notFound, {}) ∧
    FDBStorage.DeleteRAiD {} psA = (Except.error StorageErr.notFound, {}) := by
  refine ⟨by decide, by decide, by decide, by decide⟩

/-! ### Claim C8: pagination offset overflow (code bug in file and FDB drivers) -/

/-- C8 evaluation at the failing input: with one matching record and
`offset = 5`, the file and FoundationDB drivers return the full match
list (the offset guard skips nothing when `offset ≥ len`), while the
SQL driver's `OFFSET` yields the empty list the claim requires. -/
theorem C8_pagination_offset_overflow_evaluation :
    FileStorage.ListRAiDs fileSt1 (some { offset := 5 }) = [raidP1] ∧
    FDBStorage.ListRAiDs fdbSt1 (some { offset := 5 }) = [raidP1] ∧
    CockroachStorage.ListRAiDs crdbSt1 (some { offset := 5 }) = [] := by
  refine ⟨by decide, by decide, by decide⟩

/-! ### Claim C4: duplicate create fails with AlreadyExists -/

/-- C4: on each driver, after a successful `createRecord` of an explicit
`(namespace, localId)`, a second `createRecord` with the same explicit
pair fails with `AlreadyExists`, leaves the state unchanged, and the
record stored by the first call still reads back unchanged. -/
theorem C4_duplicate_create_conflicts
    (ps : Pid) (raid raid' : RAiD)
    (h1 : raid.ident = some ps) (h2 : raid'.ident = some ps) :
    (∀ (st : FileStorage.State) (tM tN tM' tN' : Nat) (r : RAiD),
      (FileStorage.CreateRAiD st raid tM tN).1 = Except.ok r →
      FileStorage.CreateRAiD (FileStorage.CreateRAiD st raid tM tN).2 raid' tM' tN' =
        (Except.error StorageErr.alreadyExists, (FileStorage.CreateRAiD st raid tM tN).2) ∧
      FileStorage.GetRAiD (FileStorage.CreateRAiD st raid tM tN).2 ps = Except.ok r) ∧
    (∀ (st : FDBStorage.State) (tN tN' : Nat) (r : RAiD),
      (FDBStorage.CreateRAiD st raid tN).1 = Except.ok r →
      FDBStorage.CreateRAiD (FDBStorage.CreateRAiD st raid tN).2 raid' tN' =
        (Except.error StorageErr.alreadyExists, (FDBStorage.CreateRAiD st raid tN).2) ∧
      FDBStorage.GetRAiD (FDBStorage.CreateRAiD st raid tN).2 ps = Except.ok r) ∧
    (∀ (st : CockroachStorage.State) (tN tN' : Nat) (r : RAiD),
      (CockroachStorage.CreateRAiD st raid tN).1 = Except.ok r →
      CockroachStorage.CreateRAiD (CockroachStorage.CreateRAiD st raid tN).2 raid' tN' =
        (Except.error StorageErr.alreadyExists, (CockroachStorage.CreateRAiD st raid tN).2) ∧
      CockroachStorage.GetRAiD (CockroachStorage.CreateRAiD st raid tN).2 ps =
        Except.ok r) := by
  refine ⟨?_, ?_, ?_⟩
  · intro st tM tN tM' tN' r hok
    simp only [FileStorage.CreateRAiD, h1] at hok ⊢
    by_cases hex : (lookupA ps st.raids).isSome
    · simp [hex] at hok
    · simp only [hex, Bool.false_eq_true, if_false] at hok ⊢
      simp only [Except.ok.injEq] at hok
      subst hok
      simp [h2, FileStorage.GetRAiD, lookupA_insertA_self]
  · intro st tN tN' r hok
    simp only [FDBStorage.CreateRAiD, h1] at hok ⊢
    by_cases hex : (lookupA ps st.current).isSome
    · simp [hex] at hok
    · simp only [hex, Bool.false_eq_true, if_false] at hok ⊢
      simp only [Except.ok.injEq] at hok
      subst hok
      simp [h2, FDBStorage.GetRAiD, lookupA_insertA_self]
  · intro st tN tN' r hok
    simp only [CockroachStorage.CreateRAiD, h1] at hok
    by_cases hex : st.raids.any (CockroachStorage.Row.isCurrentOf ps)
    · simp [hex] at hok
    · simp only [hex, Bool.false_eq_true, if_false, Except.ok.injEq] at hok
      have hstate : (CockroachStorage.CreateRAiD st raid tN).2 =
          { st with raids := st.raids ++ [CockroachStorage.newRow ps r tN tN] } := by
        simp only [CockroachStorage.CreateRAiD, h1, hex, Bool.false_eq_true, if_false]
        rw [hok]
      have hcond : ((st.raids ++ [CockroachStorage.newRow ps r tN tN]).any
          (CockroachStorage.Row.isCurrentOf ps)) = true := by
        simp [List.any_append, CockroachStorage.Row.isCurrentOf,
          CockroachStorage.newRow]
      have hnone : st.raids.find? (fun x =>
          decide (x.pfx = ps.1 ∧ x.sfx = ps.2 ∧ x.isCurrent = true ∧
            x.isDeleted = false)) = none := by
        rw [List.find?_eq_none]
        intro x hx hpx
        apply absurd hex
        simp only [not_not, List.any_eq_true]
        refine ⟨x, hx, ?_⟩
        simp only [decide_eq_true_eq] at hpx
        simp [CockroachStorage.Row.isCurrentOf, hpx.1, hpx.2.1, hpx.2.2.1]
      rw [hstate]
      constructor
      · simp only [CockroachStorage.CreateRAiD, h2]
        rw [if_pos hcond]
      · simp only [CockroachStorage.GetRAiD]
        rw [List.find?_append, hnone]
        simp [CockroachStorage.newRow]

/-- C4 witness: a concrete duplicate creation of `raidP`'s pair. -/
theorem C4_duplicate_create_conflicts_witness :
    FileStorage.CreateRAiD fileSt1 raidQ 11 13 =
      (Except.error StorageErr.alreadyExists, fileSt1) ∧
    FileStorage.GetRAiD fileSt1 psA = Except.ok raidP1 :=
  (C4_duplicate_create_conflicts psA raidP raidQ rfl rfl).1 {} 5 7 11 13 raidP1
    (by decide)

/-! ### Claim C10: re-creating a soft-deleted pair -/

/-- C10: after `createRecord` and a successful `softDelete` of the same
pair, re-creating the same explicit pair succeeds on the file and
FoundationDB drivers (the deleted entry no longer satisfies the
existence check) but fails with `AlreadyExists` on the CockroachDB
driver, whose soft delete leaves the row with `is_current = true`. -/
theorem C10_recreate_after_softdelete
    (ps : Pid) (raid raid' : RAiD)
    (h1 : raid.ident = some ps) (h2 : raid'.ident = some ps) :
    (∀ (st : FileStorage.State) (tM tN tM' tN' : Nat) (r : RAiD),
      (FileStorage.CreateRAiD st raid tM tN).1 = Except.ok r →
      (FileStorage.DeleteRAiD (FileStorage.CreateRAiD st raid tM tN).2 ps).1 =
        Except.ok () ∧
      ∃ r', (FileStorage.CreateRAiD
          (FileStorage.DeleteRAiD (FileStorage.CreateRAiD st raid tM tN).2 ps).2
          raid' tM' tN').1 = Except.ok r') ∧
    (∀ (st : FDBStorage.State) (tN tN' : Nat) (r : RAiD),
      (FDBStorage.CreateRAiD st raid tN).1 = Except.ok r →
      (FDBStorage.DeleteRAiD (FDBStorage.CreateRAiD st raid tN).2 ps).1 =
        Except.ok () ∧
      ∃ r', (FDBStorage.CreateRAiD
          (FDBStorage.DeleteRAiD (FDBStorage.CreateRAiD st raid tN).2 ps).2
          raid' tN').1 = Except.ok r') ∧
    (∀ (st : CockroachStorage.State) (tN tN' : Nat) (r : RAiD),
      (CockroachStorage.CreateRAiD st raid tN).1 = Except.ok r →
      (CockroachStorage.DeleteRAiD (CockroachStorage.CreateRAiD st raid tN).2 ps).1 =
        Except.ok () ∧
      (CockroachStorage.CreateRAiD
          (CockroachStorage.DeleteRAiD (CockroachStorage.CreateRAiD st raid tN).2 ps).2
          raid' tN').1 = Except.error StorageErr.alreadyExists) := by
  refine ⟨?_, ?_, ?_⟩
  · intro st tM tN tM' tN' r hok
    simp only [FileStorage.CreateRAiD, h1] at hok ⊢
    by_cases hex : (lookupA ps st.raids).isSome
    · simp [hex] at hok
    · simp only [hex, Bool.false_eq_true, if_false] at hok ⊢
      simp only [FileStorage.DeleteRAiD, lookupA_insertA_self]
      refine ⟨by trivial, ?_⟩
      simp only [FileStorage.CreateRAiD, h2]
      simp [lookupA_eraseA_self]
  · intro st tN tN' r hok
    simp only [FDBStorage.CreateRAiD, h1] at hok ⊢
    by_cases hex : (lookupA ps st.current).isSome
    · simp [hex] at hok
    · simp only [hex, Bool.false_eq_true, if_false] at hok ⊢
      simp only [FDBStorage.DeleteRAiD, lookupA_insertA_self]
      refine ⟨by trivial, ?_⟩
      simp only [FDBStorage.CreateRAiD, h2]
      simp [lookupA_eraseA_self]
  · intro st tN tN' r hok
    simp only [CockroachStorage.CreateRAiD, h1] at hok
    by_cases hex : st.raids.any (CockroachStorage.Row.isCurrentOf ps)
    · simp [hex] at hok
    · simp only [hex, Bool.false_eq_true, if_false, Except.ok.injEq] at hok
      have hstate : (CockroachStorage.CreateRAiD st raid tN).2 =
          { st with raids := st.raids ++ [CockroachStorage.newRow ps r tN tN] } := by
        simp only [CockroachStorage.CreateRAiD, h1, hex, Bool.false_eq_true, if_false]
        rw [hok]
      have hcond : ((st.raids ++ [CockroachStorage.newRow ps r tN tN]).any
          (CockroachStorage.Row.isCurrentOf ps)) = true := by
        simp [List.any_append, CockroachStorage.Row.isCurrentOf,
          CockroachStorage.newRow]
      rw [hstate]
      simp only [CockroachStorage.DeleteRAiD]
      rw [if_pos hcond]
      refine ⟨rfl, ?_⟩
      simp only [CockroachStorage.CreateRAiD, h2]
      rw [if_pos ?_]
      rw [List.any_eq_true]
      refine ⟨CockroachStorage.markDeleted ps (CockroachStorage.newRow ps r tN tN),
        ?_, ?_⟩
      · exact List.mem_map_of_mem _ (by simp)
      · simp [CockroachStorage.markDeleted, CockroachStorage.Row.isCurrentOf,
          CockroachStorage.newRow]

/-- C10 witness: the concrete create → softDelete → create chain. -/
theorem C10_recreate_after_softdelete_witness :
    (FileStorage.DeleteRAiD (FileStorage.CreateRAiD {} raidP 5 7).2 psA).1 =
      Except.ok () ∧
    ∃ r', (FileStorage.CreateRAiD
        (FileStorage.DeleteRAiD (FileStorage.CreateRAiD {} raidP 5 7).2 psA).2
        raidQ 11 13).1 = Except.ok r' :=
  (C10_recreate_after_softdelete psA raidP raidQ rfl rfl).1 {} 5 7 11 13 raidP1
    (by decide)

/-! ### Claim C5: create followed by getCurrent -/

/-- C5 counterexample: a valid payload submitted with an explicit
identifier and a nonzero version field is stored with that version, so
the record `getCurrent` returns has version 2, not 1 as claimed. -/
theorem C5_counterexample_nonzero_version :
    (FileStorage.CreateRAiD {} raidV2 5 7).1 =
      Except.ok { ident := some psA, version := 2, created := 7, updated := 7,
                  payload := "p" } ∧
    FileStorage.GetRAiD (FileStorage.CreateRAiD {} raidV2 5 7).2 psA =
      Except.ok { ident := some psA, version := 2, created := 7, updated := 7,
                  payload := "p" } ∧
    ({ ident := some psA, version := 2, created := 7, updated := 7,
       payload := "p" } : RAiD).version ≠ 1 := by
  refine ⟨by decide, by decide, by decide⟩

/-- C5 (amended): on each driver, creating a fresh pair from a payload
whose version field is unset (zero) and immediately reading it back
yields version 1, stored as the current, non-deleted record, with the
payload unchanged. -/
theorem C5_create_then_get_current
    (ps : Pid) (raid : RAiD) (h1 : raid.ident = some ps) (hv : raid.version = 0) :
    (∀ (st : FileStorage.State) (tM tN : Nat),
      lookupA ps st.raids = none →
      ∃ r, (FileStorage.CreateRAiD st raid tM tN).1 = Except.ok r ∧
        FileStorage.GetRAiD (FileStorage.CreateRAiD st raid tM tN).2 ps =
          Except.ok r ∧
        r.version = 1 ∧
        lookupA ps (FileStorage.CreateRAiD st raid tM tN).2.raids = some r ∧
        (FileStorage.CreateRAiD st raid tM tN).2.deleted = st.deleted ∧
        r.payloadFields = raid.payloadFields) ∧
    (∀ (st : FDBStorage.State) (tN : Nat),
      lookupA ps st.current = none →
      ∃ r, (FDBStorage.CreateRAiD st raid tN).1 = Except.ok r ∧
        FDBStorage.GetRAiD (FDBStorage.CreateRAiD st raid tN).2 ps = Except.ok r ∧
        r.version = 1 ∧
        lookupA ps (FDBStorage.CreateRAiD st raid tN).2.current = some r ∧
        (FDBStorage.CreateRAiD st raid tN).2.deleted = st.deleted ∧
        r.payloadFields = raid.payloadFields) ∧
    (∀ (st : CockroachStorage.State) (tN : Nat),
      st.raids.any (CockroachStorage.Row.isCurrentOf ps) = false →
      ∃ r, (CockroachStorage.CreateRAiD st raid tN).1 = Except.ok r ∧
        CockroachStorage.GetRAiD (CockroachStorage.CreateRAiD st raid tN).2 ps =
          Except.ok r ∧
        r.version = 1 ∧
        (CockroachStorage.CreateRAiD st raid tN).2.raids =
          st.raids ++ [CockroachStorage.newRow ps r tN tN] ∧
        (CockroachStorage.newRow ps r tN tN).isCurrent = true ∧
        (CockroachStorage.newRow ps r tN tN).isDeleted = false ∧
        r.payloadFields = raid.payloadFields) := by
  refine ⟨?_, ?_, ?_⟩
  · intro st tM tN hex
    simp only [FileStorage.CreateRAiD, h1, hex, Option.isSome_none,
      Bool.false_eq_true, if_false]
    refine ⟨_, rfl, ?_, ?_, ?_, by trivial, ?_⟩
    · simp [FileStorage.GetRAiD, lookupA_insertA_self]
    · simp [hv]
    · simp [lookupA_insertA_self]
    · simp [hv, RAiD.payloadFields]
  · intro st tN hex
    simp only [FDBStorage.CreateRAiD, h1, hex, Option.isSome_none,
      Bool.false_eq_true, if_false]
    refine ⟨_, rfl, ?_, ?_, ?_, by trivial, ?_⟩
    · simp [FDBStorage.GetRAiD, lookupA_insertA_self]
    · simp [hv]
    · simp [lookupA_insertA_self]
    · simp [hv, RAiD.payloadFields]
  · intro st tN hex
    simp only [CockroachStorage.CreateRAiD, h1, hex, Bool.false_eq_true, if_false]
    refine ⟨_, rfl, ?_, ?_, rfl, rfl, rfl, ?_⟩
    · simp only [CockroachStorage.GetRAiD]
      rw [List.find?_append]
      have hnone : st.raids.find? (fun x =>
          decide (x.pfx = ps.1 ∧ x.sfx = ps.2 ∧ x.isCurrent = true ∧
            x.isDeleted = false)) = none := by
        rw [List.find?_eq_none]
        intro x hx hpx
        have : st.raids.any (CockroachStorage.Row.isCurrentOf ps) = true := by
          rw [List.any_eq_true]
          refine ⟨x, hx, ?_⟩
          simp only [decide_eq_true_eq] at hpx
          simp [CockroachStorage.Row.isCurrentOf, hpx.1, hpx.2.1, hpx.2.2.1]
        rw [hex] at this
        exact Bool.false_ne_true this
      rw [hnone]
      simp [CockroachStorage.newRow]
    · simp [hv]
    · simp [hv, RAiD.payloadFields]

/-! ### Claim C6: identifier minting -/

/-- C6: on every driver, `generateIdentifier` under an issuing point
whose namespace is "10.25.1.1" returns namespace "10.25.1.1", and the
fixed default namespace is used when no issuing point is named; two
sequential mints return distinct localIds — on the counter-based
drivers because the per-namespace counter is atomically incremented so
the minted integers strictly increase, and on the file driver whenever
the two nanosecond clock readings differ. -/
theorem C6_identifier_minting :
    (∀ (st : FileStorage.State) (t : Nat),
      (FileStorage.generateIdentifier st 0 t).1 = defaultNamespace) ∧
    (∀ (st : FileStorage.State) (spId : Int) (sp : ServicePoint) (t : Nat),
      0 < spId → lookupA spId st.servicePoints = some sp →
      sp.pfx = defaultNamespace →
      (FileStorage.generateIdentifier st spId t).1 = defaultNamespace) ∧
    (∀ (st : FileStorage.State) (spId : Int) (t1 t2 : Nat), t1 ≠ t2 →
      (FileStorage.generateIdentifier st spId t1).2 ≠
        (FileStorage.generateIdentifier st spId t2).2) ∧
    (∀ (st : CockroachStorage.State),
      ((CockroachStorage.GenerateIdentifier st 0).1).1 = defaultNamespace) ∧
    (∀ (st : CockroachStorage.State) (spId : Int) (sp : ServicePoint),
      0 < spId → lookupA spId st.servicePoints = some sp →
      sp.pfx = defaultNamespace →
      ((CockroachStorage.GenerateIdentifier st spId).1).1 = defaultNamespace) ∧
    (∀ (st : CockroachStorage.State) (spId : Int),
      ∃ v : Nat,
        ((CockroachStorage.GenerateIdentifier st spId).1).2 = natToDec v ∧
        ((CockroachStorage.GenerateIdentifier
            (CockroachStorage.GenerateIdentifier st spId).2 spId).1).2 =
          natToDec (v + 1) ∧
        v < v + 1 ∧
        natToDec v ≠ natToDec (v + 1)) ∧
    (∀ (st : FDBStorage.State),
      ((FDBStorage.GenerateIdentifier st 0).1).1 = defaultNamespace) ∧
    (∀ (st : FDBStorage.State) (spId : Int) (sp : ServicePoint),
      0 < spId → lookupA spId st.servicePoints = some sp →
      sp.pfx = defaultNamespace →
      ((FDBStorage.GenerateIdentifier st spId).1).1 = defaultNamespace) ∧
    (∀ (st : FDBStorage.State) (spId : Int),
      (∀ k v, lookupA k st.counters = some v → v + 2 < 2 ^ 63) →
      ∃ v : Nat,
        ((FDBStorage.GenerateIdentifier st spId).1).2 = natToDec v ∧
        ((FDBStorage.GenerateIdentifier
            (FDBStorage.GenerateIdentifier st spId).2 spId).1).2 =
          natToDec (v + 1) ∧
        v < v + 1 ∧
        natToDec v ≠ natToDec (v + 1)) := by
  have hinj : ∀ v : Nat, natToDec v ≠ natToDec (v + 1) := by
    intro v h
    have := natToDec_injective h
    omega
  refine ⟨?_, ?_, ?_, ?_, ?_, ?_, ?_, ?_, ?_⟩
  · intro st t
    simp [FileStorage.generateIdentifier, FileStorage.resolvePfx]
  · intro st spId sp t hpos hsp hdef
    simp only [FileStorage.generateIdentifier, FileStorage.resolvePfx, hpos,
      if_pos, hsp, hdef]
    by_cases h : defaultNamespace = "" <;> simp [h]
  · intro st spId t1 t2 hne h
    exact hne (natToDec_injective h)
  · intro st
    simp [CockroachStorage.GenerateIdentifier, CockroachStorage.resolvePfx]
  · intro st spId sp hpos hsp hdef
    simp only [CockroachStorage.GenerateIdentifier, CockroachStorage.resolvePfx,
      CockroachStorage.GetServicePoint, hpos, if_pos, hsp, hdef]
    by_cases h : defaultNamespace = "" <;> simp [h]
  · intro st spId
    have hres : ∀ c : List (String × Nat),
        CockroachStorage.resolvePfx { st with counters := c } spId =
        CockroachStorage.resolvePfx st spId := fun c => rfl
    simp only [CockroachStorage.GenerateIdentifier, hres]
    refine ⟨_, rfl, ?_, Nat.lt_succ_self _, hinj _⟩
    simp [lookupA_insertA_self]
  · intro st
    simp [FDBStorage.GenerateIdentifier, FDBStorage.resolvePfx]
  · intro st spId sp hpos hsp hdef
    simp only [FDBStorage.GenerateIdentifier, FDBStorage.resolvePfx,
      FDBStorage.GetServicePoint, hpos, if_pos, hsp, hdef]
    by_cases h : defaultNamespace = "" <;> simp [h]
  · intro st spId hsmall
    have hres : ∀ c : List ((String × String) × Nat),
        FDBStorage.resolvePfx { st with counters := c } spId =
        FDBStorage.resolvePfx st spId := fun c => rfl
    simp only [FDBStorage.GenerateIdentifier, hres]
    cases hold : lookupA ("raid", FDBStorage.resolvePfx st spId) st.counters with
    | none =>
        refine ⟨1, ?_, ?_, Nat.lt_succ_self _, hinj _⟩
        · simp [hold, FDBStorage.int64ToDec]
        · simp [hold, lookupA_insertA_self, FDBStorage.int64ToDec]
    | some v0 =>
        have hb : v0 + 2 < 9223372036854775808 := by
          have := hsmall _ _ hold
          norm_num at this
          exact this
        refine ⟨v0 + 1, ?_, ?_, Nat.lt_succ_self _, hinj _⟩
        · simp only [hold, FDBStorage.int64ToDec]
          rw [Nat.mod_eq_of_lt (by omega), if_pos (by omega)]
        · simp only [hold, lookupA_insertA_self, FDBStorage.int64ToDec]
          rw [Nat.mod_eq_of_lt (show v0 + 1 < 2 ^ 64 by omega),
            Nat.mod_eq_of_lt (show v0 + 1 + 1 < 2 ^ 64 by omega),
            if_pos (show v0 + 1 + 1 < 2 ^ 63 by omega)]

/-- C6 witness: two concrete sequential mints on each driver. -/
theorem C6_identifier_minting_witness :
    (FileStorage.generateIdentifier {} 0 41).2 ≠
      (FileStorage.generateIdentifier {} 0 42).2 ∧
    (∃ v : Nat,
      ((CockroachStorage.GenerateIdentifier {} 0).1).2 = natToDec v ∧
      ((CockroachStorage.GenerateIdentifier
          (CockroachStorage.GenerateIdentifier {} 0).2 0).1).2 =
        natToDec (v + 1) ∧
      v < v + 1 ∧
      natToDec v ≠ natToDec (v + 1)) ∧
    (∃ v : Nat,
      ((FDBStorage.GenerateIdentifier {} 0).1).2 = natToDec v ∧
      ((FDBStorage.GenerateIdentifier
          (FDBStorage.GenerateIdentifier {} 0).2 0).1).2 =
        natToDec (v + 1) ∧
      v < v + 1 ∧
      natToDec v ≠ natToDec (v + 1)) :=
  ⟨C6_identifier_minting.2.2.1 {} 0 41 42 (by decide),
   C6_identifier_minting.2.2.2.2.2.1 {} 0,
   C6_identifier_minting.2.2.2.2.2.2.2.2 {} 0 (by
     intro k v h
     simp [lookupA] at h)⟩

/-! ### Helper lemmas for update chains -/

theorem find?_stronger {α : Type} {p q : α → Bool}
    (himp : ∀ a, q a = true → p a = true) :
    ∀ {l : List α} {x : α}, l.find? p = some x → q x = true →
      l.find? q = some x := by
  intro l
  induction l with
  | nil => intro x h; simp at h
  | cons a as ih =>
      intro x h hq
      by_cases hpa : p a
      · rw [List.find?_cons_of_pos _ hpa] at h
        cases h
        rw [List.find?_cons_of_pos _ hq]
      · have hqa : ¬ q a = true := fun hqa => hpa (himp a hqa)
        rw [List.find?_cons_of_neg _ (by simpa using hpa)] at h
        rw [List.find?_cons_of_neg _ (by simpa using hqa)]
        exact ih h hq

theorem insertA_append_of_fresh {κ α : Type} [DecidableEq κ] {k : κ} (v : α) :
    ∀ {l : List (κ × α)}, k ∉ l.map Prod.fst → insertA k v l = l ++ [(k, v)] := by
  intro l
  induction l with
  | nil => intro _; simp [insertA]
  | cons hd tl ih =>
      intro hk
      obtain ⟨k0, v0⟩ := hd
      simp only [List.map_cons, List.mem_cons, not_or] at hk
      simp only [insertA]
      rw [if_neg (fun h : k0 = k => hk.1 h.symm), ih hk.2]
      simp

/-- Updating preserves the creation timestamp of the current record on
the file driver, bumping the version once per update. -/
theorem FileStorage.applyUpdates_created_file (ps : Pid) (upds : List (RAiD × Nat)) :
    ∀ (st : FileStorage.State) (c : RAiD), lookupA ps st.raids = some c →
    ∃ c', lookupA ps (FileStorage.applyUpdates ps st upds).raids = some c' ∧
      c'.created = c.created ∧ c'.version = c.version + upds.length := by
  induction upds with
  | nil => intro st c h; exact ⟨c, h, rfl, by simp [FileStorage.applyUpdates]⟩
  | cons hd tl ih =>
      intro st c h
      obtain ⟨r, t⟩ := hd
      have hlook : lookupA ps (FileStorage.UpdateRAiD st ps r t).2.raids =
          some { r with created := c.created, updated := t,
                        version := c.version + 1 } := by
        simp only [FileStorage.UpdateRAiD, h]
        exact lookupA_insertA_self ps _ _
      obtain ⟨c', h1, h2, h3⟩ := ih _ _ hlook
      refine ⟨c', ?_, ?_, ?_⟩
      · simpa [FileStorage.applyUpdates] using h1
      · simpa using h2
      · simp at h3
        simp only [List.length_cons]
        omega

/-- Likewise on the FoundationDB driver. -/
theorem FDBStorage.applyUpdates_created_fdb (ps : Pid) (upds : List (RAiD × Nat)) :
    ∀ (st : FDBStorage.State) (c : RAiD), lookupA ps st.current = some c →
    ∃ c', lookupA ps (FDBStorage.applyUpdates ps st upds).current = some c' ∧
      c'.created = c.created ∧ c'.version = c.version + upds.length := by
  induction upds with
  | nil => intro st c h; exact ⟨c, h, rfl, by simp [FDBStorage.applyUpdates]⟩
  | cons hd tl ih =>
      intro st c h
      obtain ⟨r, t⟩ := hd
      have hlook : lookupA ps (FDBStorage.UpdateRAiD st ps r t).2.current =
          some { r with created := c.created, updated := t,
                        version := c.version + 1 } := by
        simp only [FDBStorage.UpdateRAiD, h]
        exact lookupA_insertA_self ps _ _
      obtain ⟨c', h1, h2, h3⟩ := ih _ _ hlook
      refine ⟨c', ?_, ?_, ?_⟩
      · simpa [FDBStorage.applyUpdates] using h1
      · simpa using h2
      · simp at h3
        simp only [List.length_cons]
        omega

/-- After an update, the only current row of the pair is the appended
row; rows of other pairs and flipped rows never satisfy the current
lookup. -/
theorem CockroachStorage.find?_flipped_append (ps : Pid)
    (rows : List CockroachStorage.Row) (row : CockroachStorage.Row) :
    ((rows.map (CockroachStorage.clearCurrent ps)) ++ [row]).find?
      (CockroachStorage.Row.isCurrentOf ps) =
    if CockroachStorage.Row.isCurrentOf ps row then some row else none := by
  rw [List.find?_append]
  have hnone : (rows.map (CockroachStorage.clearCurrent ps)).find?
      (CockroachStorage.Row.isCurrentOf ps) = none := by
    rw [List.find?_eq_none]
    intro x hx
    rcases List.mem_map.mp hx with ⟨y, _, rfl⟩
    by_cases hy : CockroachStorage.Row.isCurrentOf ps y
    · have hy2 := hy
      simp only [CockroachStorage.Row.isCurrentOf, decide_eq_true_eq] at hy2
      simp [CockroachStorage.clearCurrent, hy,
        CockroachStorage.Row.isCurrentOf, hy2.1, hy2.2.1, hy2.2.2]
    · simp [CockroachStorage.clearCurrent, hy]
  rw [hnone]
  by_cases hrow : CockroachStorage.Row.isCurrentOf ps row <;> simp [hrow, List.find?]

/-- Updating preserves the `created_at` column of the current row on
the CockroachDB driver, bumping the version once per update and keeping
the row's data in sync with its columns. -/
theorem CockroachStorage.applyUpdates_current (ps : Pid) (upds : List (RAiD × Nat)) :
    ∀ (st : CockroachStorage.State) (row : CockroachStorage.Row),
    st.raids.find? (CockroachStorage.Row.isCurrentOf ps) = some row →
    row.isDeleted = false → row.data.created = row.createdAt →
    row.data.version = row.version →
    ∃ row', (CockroachStorage.applyUpdates ps st upds).raids.find?
        (CockroachStorage.Row.isCurrentOf ps) = some row' ∧
      row'.isDeleted = false ∧ row'.createdAt = row.createdAt ∧
      row'.version = row.version + upds.length ∧
      row'.data.created = row.createdAt ∧ row'.data.version = row'.version := by
  induction upds with
  | nil =>
      intro st row h hdel hdc hdv
      exact ⟨row, h, hdel, rfl, by simp [CockroachStorage.applyUpdates],
        hdc, by simp [CockroachStorage.applyUpdates, hdv]⟩
  | cons hd tl ih =>
      intro st row h hdel hdc hdv
      obtain ⟨r, t⟩ := hd
      have hfind : (CockroachStorage.UpdateRAiD st ps r t).2.raids.find?
          (CockroachStorage.Row.isCurrentOf ps) =
          some (CockroachStorage.newRow ps
            { r with created := row.createdAt, updated := t,
                     version := row.version + 1 } row.createdAt t) := by
        simp only [CockroachStorage.UpdateRAiD, h]
        have hfa := CockroachStorage.find?_flipped_append ps st.raids
          (CockroachStorage.newRow ps
            { r with created := row.createdAt, updated := t,
                     version := row.version + 1 } row.createdAt t)
        rw [if_pos (by simp [CockroachStorage.Row.isCurrentOf,
          CockroachStorage.newRow])] at hfa
        exact hfa
      obtain ⟨row', h1, h2, h3, h4, h5, h6⟩ := ih _ _ hfind rfl rfl rfl
      refine ⟨row', ?_, h2, ?_, ?_, ?_, h6⟩
      · simpa [CockroachStorage.applyUpdates] using h1
      · simpa [CockroachStorage.newRow] using h3
      · simp only [List.length_cons]
        simp [CockroachStorage.newRow] at h4
        omega
      · simpa [CockroachStorage.newRow] using h5

/-- Bridge from the update-path current lookup to `GetRAiD`'s stricter
`is_deleted = false` lookup. -/
theorem CockroachStorage.GetRAiD_of_find_current {st : CockroachStorage.State}
    {ps : Pid} {row : CockroachStorage.Row}
    (h : st.raids.find? (CockroachStorage.Row.isCurrentOf ps) = some row)
    (hdel : row.isDeleted = false) :
    CockroachStorage.GetRAiD st ps = Except.ok row.data := by
  have hpred := List.find?_some h
  simp only [CockroachStorage.Row.isCurrentOf, decide_eq_true_eq] at hpred
  have := find?_stronger (p := CockroachStorage.Row.isCurrentOf ps)
    (q := fun x => decide (x.pfx = ps.1 ∧ x.sfx = ps.2 ∧ x.isCurrent = true ∧
      x.isDeleted = false))
    (fun a ha => by
      simp only [decide_eq_true_eq] at ha
      simp [CockroachStorage.Row.isCurrentOf, ha.1, ha.2.1, ha.2.2.1]) h
    (by simp [hpred.1, hpred.2.1, hpred.2.2, hdel])
  simp only [CockroachStorage.GetRAiD]
  rw [this]

/-! ### Claim C1: update semantics -/

/-- C1: on every driver, when the pair has a current version, `update`
reads that current version and writes a new version numbered previous
plus 1, with createdAt copied from the record it supersedes — hence,
along any chain of updates from the creation, equal to the original
record's createdAt — and updatedAt set to the update time; when no
current version exists, `update` fails with `NotFound` and writes
nothing. -/
theorem C1_update_semantics :
    (∀ (st : FileStorage.State) (ps : Pid) (raid cur : RAiD) (tNow : Nat),
      lookupA ps st.raids = some cur →
      ∃ r, FileStorage.UpdateRAiD st ps raid tNow =
          (Except.ok r,
            { st with history := insertA (ps, cur.version) cur st.history,
                      raids := insertA ps r st.raids }) ∧
        r.version = cur.version + 1 ∧ r.created = cur.created ∧
        r.updated = tNow ∧ r.payloadFields = raid.payloadFields) ∧
    (∀ (st : FileStorage.State) (ps : Pid) (raid : RAiD) (tNow : Nat),
      lookupA ps st.raids = none →
      FileStorage.UpdateRAiD st ps raid tNow =
        (Except.error StorageErr.notFound, st)) ∧
    (∀ (st : FileStorage.State) (ps : Pid) (raid r0 : RAiD) (tM tN : Nat)
        (upds : List (RAiD × Nat)),
      raid.ident = some ps →
      (FileStorage.CreateRAiD st raid tM tN).1 = Except.ok r0 →
      ∃ r', FileStorage.GetRAiD
          (FileStorage.applyUpdates ps (FileStorage.CreateRAiD st raid tM tN).2 upds)
          ps = Except.ok r' ∧
        r'.created = tN ∧ r'.version = r0.version + upds.length) ∧
    (∀ (st : FDBStorage.State) (ps : Pid) (raid cur : RAiD) (tNow : Nat),
      lookupA ps st.current = some cur →
      ∃ r, FDBStorage.UpdateRAiD st ps raid tNow =
          (Except.ok r,
            { st with current := insertA ps r st.current,
                      versions := insertA (ps, r.version) r st.versions }) ∧
        r.version = cur.version + 1 ∧ r.created = cur.created ∧
        r.updated = tNow ∧ r.payloadFields = raid.payloadFields) ∧
    (∀ (st : FDBStorage.State) (ps : Pid) (raid : RAiD) (tNow : Nat),
      lookupA ps st.current = none →
      FDBStorage.UpdateRAiD st ps raid tNow =
        (Except.error StorageErr.notFound, st)) ∧
    (∀ (st : FDBStorage.State) (ps : Pid) (raid r0 : RAiD) (tN : Nat)
        (upds : List (RAiD × Nat)),
      raid.ident = some ps →
      (FDBStorage.CreateRAiD st raid tN).1 = Except.ok r0 →
      ∃ r', FDBStorage.GetRAiD
          (FDBStorage.applyUpdates ps (FDBStorage.CreateRAiD st raid tN).2 upds)
          ps = Except.ok r' ∧
        r'.created = tN ∧ r'.version = r0.version + upds.length) ∧
    (∀ (st : CockroachStorage.State) (ps : Pid) (raid : RAiD)
        (cur : CockroachStorage.Row) (tNow : Nat),
      st.raids.find? (CockroachStorage.Row.isCurrentOf ps) = some cur →
      ∃ r, (CockroachStorage.UpdateRAiD st ps raid tNow).1 = Except.ok r ∧
        r.version = cur.version + 1 ∧ r.created = cur.createdAt ∧
        r.updated = tNow ∧ r.payloadFields = raid.payloadFields ∧
        (CockroachStorage.UpdateRAiD st ps raid tNow).2.raids =
          st.raids.map (CockroachStorage.clearCurrent ps) ++
            [CockroachStorage.newRow ps r cur.createdAt tNow]) ∧
    (∀ (st : CockroachStorage.State) (ps : Pid) (raid : RAiD) (tNow : Nat),
      st.raids.find? (CockroachStorage.Row.isCurrentOf ps) = none →
      CockroachStorage.UpdateRAiD st ps raid tNow =
        (Except.error StorageErr.notFound, st)) ∧
    (∀ (st : CockroachStorage.State) (ps : Pid) (raid r0 : RAiD) (tN : Nat)
        (upds : List (RAiD × Nat)),
      raid.ident = some ps →
      (CockroachStorage.CreateRAiD st raid tN).1 = Except.ok r0 →
      ∃ r', CockroachStorage.GetRAiD
          (CockroachStorage.applyUpdates ps (CockroachStorage.CreateRAiD st raid tN).2
            upds) ps = Except.ok r' ∧
        r'.created = tN ∧ r'.version = r0.version + upds.length) := by
  refine ⟨?_, ?_, ?_, ?_, ?_, ?_, ?_, ?_, ?_⟩
  · intro st ps raid cur tNow h
    simp only [FileStorage.UpdateRAiD, h]
    exact ⟨_, rfl, by simp, by simp, by simp, by simp [RAiD.payloadFields]⟩
  · intro st ps raid tNow h
    simp [FileStorage.UpdateRAiD, h]
  · intro st ps raid r0 tM tN upds hid hok
    simp only [FileStorage.CreateRAiD, hid] at hok
    by_cases hex : (lookupA ps st.raids).isSome
    · simp [hex] at hok
    · simp only [hex, Bool.false_eq_true, if_false, Except.ok.injEq] at hok
      have hstate : (FileStorage.CreateRAiD st raid tM tN).2 =
          { st with raids := insertA ps r0 st.raids } := by
        simp only [FileStorage.CreateRAiD, hid, hex, Bool.false_eq_true, if_false]
        rw [hok]
      have hcreated : r0.created = tN := by
        rw [← hok]
        by_cases hv : raid.version = 0 <;> simp [hv]
      rw [hstate]
      obtain ⟨r', h1, h2, h3⟩ := FileStorage.applyUpdates_created_file ps upds
        { st with raids := insertA ps r0 st.raids } r0 (lookupA_insertA_self ps _ _)
      exact ⟨r', by simp [FileStorage.GetRAiD, h1], by rw [h2, hcreated], h3⟩
  · intro st ps raid cur tNow h
    simp only [FDBStorage.UpdateRAiD, h]
    exact ⟨_, rfl, by simp, by simp, by simp, by simp [RAiD.payloadFields]⟩
  · intro st ps raid tNow h
    simp [FDBStorage.UpdateRAiD, h]
  · intro st ps raid r0 tN upds hid hok
    simp only [FDBStorage.CreateRAiD, hid] at hok
    by_cases hex : (lookupA ps st.current).isSome
    · simp [hex] at hok
    · simp only [hex, Bool.false_eq_true, if_false, Except.ok.injEq] at hok
      have hstate : (FDBStorage.CreateRAiD st raid tN).2.current =
          insertA ps r0 st.current := by
        simp only [FDBStorage.CreateRAiD, hid, hex, Bool.false_eq_true, if_false]
        rw [hok]
      have hcreated : r0.created = tN := by
        rw [← hok]
        by_cases hv : raid.version = 0 <;> simp [hv]
      obtain ⟨r', h1, h2, h3⟩ := FDBStorage.applyUpdates_created_fdb ps upds
        (FDBStorage.CreateRAiD st raid tN).2 r0
        (by rw [hstate]; exact lookupA_insertA_self ps _ _)
      exact ⟨r', by simp [FDBStorage.GetRAiD, h1], by rw [h2, hcreated], h3⟩
  · intro st ps raid cur tNow h
    simp only [CockroachStorage.UpdateRAiD, h]
    exact ⟨_, rfl, by simp, by simp, by simp, by simp [RAiD.payloadFields], rfl⟩
  · intro st ps raid tNow h
    simp [CockroachStorage.UpdateRAiD, h]
  · intro st ps raid r0 tN upds hid hok
    simp only [CockroachStorage.CreateRAiD, hid] at hok
    by_cases hex : st.raids.any (CockroachStorage.Row.isCurrentOf ps)
    · simp [hex] at hok
    · simp only [hex, Bool.false_eq_true, if_false, Except.ok.injEq] at hok
      have hstate : (CockroachStorage.CreateRAiD st raid tN).2 =
          { st with raids := st.raids ++ [CockroachStorage.newRow ps r0 tN tN] } := by
        simp only [CockroachStorage.CreateRAiD, hid, hex, Bool.false_eq_true, if_false]
        rw [hok]
      have hcreated : r0.created = tN := by
        rw [← hok]
        by_cases hv : raid.version = 0 <;> simp [hv]
      have hfind : (CockroachStorage.CreateRAiD st raid tN).2.raids.find?
          (CockroachStorage.Row.isCurrentOf ps) =
          some (CockroachStorage.newRow ps r0 tN tN) := by
        rw [hstate]
        rw [List.find?_append]
        have hnone : st.raids.find? (CockroachStorage.Row.isCurrentOf ps) = none := by
          rw [List.find?_eq_none]
          intro x hx hpx
          exact absurd (List.any_eq_true.mpr ⟨x, hx, hpx⟩) hex
        rw [hnone]
        simp [List.find?, CockroachStorage.Row.isCurrentOf, CockroachStorage.newRow]
      obtain ⟨row', h1, h2, h3, h4, h5, h6⟩ :=
        CockroachStorage.applyUpdates_current ps upds _ _ hfind rfl
          (by simp [CockroachStorage.newRow, hcreated]) rfl
      refine ⟨row'.data, CockroachStorage.GetRAiD_of_find_current h1 h2, ?_, ?_⟩
      · rw [h5]
        simp [CockroachStorage.newRow]
      · rw [h6, h4]
        simp [CockroachStorage.newRow]

/-- C1 witness: the concrete update of the pair created at time 7,
updated at time 9. -/
theorem C1_update_semantics_witness :
    ∃ r, FileStorage.UpdateRAiD fileSt1 psA raidQ 9 =
        (Except.ok r,
          { fileSt1 with history := insertA (psA, raidP1.version) raidP1 fileSt1.history,
                         raids := insertA psA r fileSt1.raids }) ∧
      r.version = raidP1.version + 1 ∧ r.created = raidP1.created ∧
      r.updated = 9 ∧ r.payloadFields = raidQ.payloadFields :=
  C1_update_semantics.1 fileSt1 psA raidQ raidP1 9 (by decide)

/-! ### Helper lemmas for history tracking -/

/-- Inserting the next version under a fresh key appends it, extending
the contiguous key range of the pair's history/version entries. -/
theorem filteredKeys_insert (ps : Pid) (l : List ((Pid × Nat) × RAiD)) (c : RAiD)
    (v0 k : Nat)
    (hkeys : ((l.filter fun e => decide (e.1.1 = ps)).map fun e => e.1.2) =
      List.range' v0 k)
    (hvals : ∀ e ∈ l, e.1.1 = ps → e.2.version = e.1.2)
    (hc : c.version = v0 + k) :
    insertA (ps, v0 + k) c l = l ++ [((ps, v0 + k), c)] ∧
    ((((l ++ [((ps, v0 + k), c)]).filter fun e => decide (e.1.1 = ps)).map
      fun e => e.1.2) = List.range' v0 (k + 1)) ∧
    (∀ e ∈ l ++ [((ps, v0 + k), c)], e.1.1 = ps → e.2.version = e.1.2) := by
  have hfresh : ((ps, v0 + k) : Pid × Nat) ∉ l.map Prod.fst := by
    intro hmem
    rcases List.mem_map.mp hmem with ⟨e, hel, hkey⟩
    have hps : e.1.1 = ps := by rw [hkey]
    have hmem2 : e ∈ l.filter fun e => decide (e.1.1 = ps) :=
      List.mem_filter.mpr ⟨hel, by simp [hps]⟩
    have : e.1.2 ∈ List.range' v0 k := by
      rw [← hkeys]
      exact List.mem_map_of_mem _ hmem2
    rw [List.mem_range'_1] at this
    have : e.1.2 = v0 + k := by rw [hkey]
    omega
  refine ⟨insertA_append_of_fresh c hfresh, ?_, ?_⟩
  · rw [List.filter_append, List.map_append]
    rw [hkeys]
    have : (([((ps, v0 + k), c)].filter fun e => decide (e.1.1 = ps)).map
        fun e => e.1.2) = [v0 + k] := by simp
    rw [this, List.range'_concat]
    simp
  · intro e he hps
    rcases List.mem_append.mp he with he | he
    · exact hvals e he hps
    · simp only [List.mem_singleton] at he
      rw [he]
      exact hc

/-- On the file driver, `k` historical versions `v0 … v0+k-1` plus the
current version `v0+k` stay a contiguous range under updates. -/
theorem FileStorage.applyUpdates_history (ps : Pid) (upds : List (RAiD × Nat)) :
    ∀ (st : FileStorage.State) (c : RAiD) (v0 k : Nat),
    lookupA ps st.raids = some c → c.version = v0 + k →
    ((st.history.filter fun e => decide (e.1.1 = ps)).map fun e => e.1.2) =
      List.range' v0 k →
    (∀ e ∈ st.history, e.1.1 = ps → e.2.version = e.1.2) →
    ∃ c', lookupA ps (FileStorage.applyUpdates ps st upds).raids = some c' ∧
      c'.version = v0 + (k + upds.length) ∧
      (((FileStorage.applyUpdates ps st upds).history.filter
          fun e => decide (e.1.1 = ps)).map fun e => e.1.2) =
        List.range' v0 (k + upds.length) ∧
      (∀ e ∈ (FileStorage.applyUpdates ps st upds).history, e.1.1 = ps →
        e.2.version = e.1.2) := by
  induction upds with
  | nil =>
      intro st c v0 k h hv hkeys hvals
      exact ⟨c, h, by simpa using hv, by simpa using hkeys, hvals⟩
  | cons hd tl ih =>
      intro st c v0 k h hv hkeys hvals
      obtain ⟨r, t⟩ := hd
      obtain ⟨happ, hkeys2, hvals2⟩ := filteredKeys_insert ps st.history c v0 k
        hkeys hvals hv
      have hstep : (FileStorage.UpdateRAiD st ps r t).2 =
          { st with
              history := st.history ++ [((ps, v0 + k), c)],
              raids := insertA ps { r with created := c.created, updated := t, version := c.version + 1 } st.raids } := by
        simp only [FileStorage.UpdateRAiD, h]
        rw [hv, happ]
      have hlook : lookupA ps (FileStorage.UpdateRAiD st ps r t).2.raids =
          some { r with created := c.created, updated := t,
                        version := c.version + 1 } := by
        rw [hstep]
        exact lookupA_insertA_self ps _ _
      obtain ⟨c', h1, h2, h3, h4⟩ := ih (FileStorage.UpdateRAiD st ps r t).2 _
        v0 (k + 1) hlook (by simp [hv]; omega)
        (by rw [hstep]; exact hkeys2) (by rw [hstep]; exact hvals2)
      refine ⟨c', ?_, ?_, ?_, ?_⟩
      · simpa [FileStorage.applyUpdates] using h1
      · rw [h2]; simp only [List.length_cons]; omega
      · have : k + 1 + tl.length = k + (tl.length + 1) := by omega
        rw [this] at h3
        simpa [FileStorage.applyUpdates] using h3
      · intro e he hps
        exact h4 e (by simpa [FileStorage.applyUpdates] using he) hps

/-- On the FoundationDB driver, the version keys of a pair stay the
contiguous range `v0 … v0+k` (current version `v0+k`) under updates. -/
theorem FDBStorage.applyUpdates_versions (ps : Pid) (upds : List (RAiD × Nat)) :
    ∀ (st : FDBStorage.State) (c : RAiD) (v0 k : Nat),
    lookupA ps st.current = some c → c.version = v0 + k →
    ((st.versions.filter fun e => decide (e.1.1 = ps)).map fun e => e.1.2) =
      List.range' v0 (k + 1) →
    (∀ e ∈ st.versions, e.1.1 = ps → e.2.version = e.1.2) →
    ∃ c', lookupA ps (FDBStorage.applyUpdates ps st upds).current = some c' ∧
      c'.version = v0 + (k + upds.length) ∧
      (((FDBStorage.applyUpdates ps st upds).versions.filter
          fun e => decide (e.1.1 = ps)).map fun e => e.1.2) =
        List.range' v0 (k + upds.length + 1) ∧
      (∀ e ∈ (FDBStorage.applyUpdates ps st upds).versions, e.1.1 = ps →
        e.2.version = e.1.2) := by
  induction upds with
  | nil =>
      intro st c v0 k h hv hkeys hvals
      exact ⟨c, h, by simpa using hv, by simpa using hkeys, hvals⟩
  | cons hd tl ih =>
      intro st c v0 k h hv hkeys hvals
      obtain ⟨r, t⟩ := hd
      have hc1 : ({ r with created := c.created, updated := t, version := c.version + 1 } : RAiD).version = v0 + (k + 1) := by
        simp [hv]; omega
      obtain ⟨happ, hkeys2, hvals2⟩ := filteredKeys_insert ps st.versions
        { r with created := c.created, updated := t, version := c.version + 1 }
        v0 (k + 1) hkeys hvals hc1
      rw [show v0 + (k + 1) = c.version + 1 from by omega] at happ hkeys2 hvals2
      have hstep : (FDBStorage.UpdateRAiD st ps r t).2 =
          { st with
              current := insertA ps { r with created := c.created, updated := t, version := c.version + 1 } st.current,
              versions := st.versions ++ [((ps, c.version + 1), { r with created := c.created, updated := t, version := c.version + 1 })] } := by
        simp only [FDBStorage.UpdateRAiD, h]
        rw [happ]
      have hlook : lookupA ps (FDBStorage.UpdateRAiD st ps r t).2.current =
          some { r with created := c.created, updated := t,
                        version := c.version + 1 } := by
        rw [hstep]
        exact lookupA_insertA_self ps _ _
      obtain ⟨c', h1, h2, h3, h4⟩ := ih (FDBStorage.UpdateRAiD st ps r t).2 _
        v0 (k + 1) hlook hc1
        (by rw [hstep]; exact hkeys2) (by rw [hstep]; exact hvals2)
      refine ⟨c', ?_, ?_, ?_, ?_⟩
      · simpa [FDBStorage.applyUpdates] using h1
      · rw [h2]; simp only [List.length_cons]; omega
      · have : k + 1 + tl.length + 1 = k + (tl.length + 1) + 1 := by omega
        rw [this] at h3
        simpa [FDBStorage.applyUpdates] using h3
      · intro e he hps
        exact h4 e (by simpa [FDBStorage.applyUpdates] using he) hps

theorem CockroachStorage.clearCurrent_pair (ps : Pid) (x : CockroachStorage.Row) :
    (decide ((CockroachStorage.clearCurrent ps x).pfx = ps.1 ∧
      (CockroachStorage.clearCurrent ps x).sfx = ps.2) : Bool) =
    decide (x.pfx = ps.1 ∧ x.sfx = ps.2) := by
  by_cases h : CockroachStorage.Row.isCurrentOf ps x <;>
    simp [CockroachStorage.clearCurrent, h]

theorem CockroachStorage.clearCurrent_version (ps : Pid)
    (x : CockroachStorage.Row) :
    (CockroachStorage.clearCurrent ps x).version = x.version := by
  by_cases h : CockroachStorage.Row.isCurrentOf ps x <;>
    simp [CockroachStorage.clearCurrent, h]

theorem CockroachStorage.clearCurrent_data (ps : Pid) (x : CockroachStorage.Row) :
    (CockroachStorage.clearCurrent ps x).data = x.data := by
  by_cases h : CockroachStorage.Row.isCurrentOf ps x <;>
    simp [CockroachStorage.clearCurrent, h]

theorem CockroachStorage.filter_pair_map_clearCurrent (ps : Pid)
    (l : List CockroachStorage.Row) :
    ((l.map (CockroachStorage.clearCurrent ps)).filter
      fun x => decide (x.pfx = ps.1 ∧ x.sfx = ps.2)) =
    ((l.filter fun x => decide (x.pfx = ps.1 ∧ x.sfx = ps.2)).map
      (CockroachStorage.clearCurrent ps)) := by
  rw [List.filter_map]
  congr 1
  apply List.filter_congr
  intro a _
  simpa [Function.comp] using CockroachStorage.clearCurrent_pair ps a

theorem CockroachStorage.markDeleted_pair (ps : Pid) (x : CockroachStorage.Row) :
    (decide ((CockroachStorage.markDeleted ps x).pfx = ps.1 ∧
      (CockroachStorage.markDeleted ps x).sfx = ps.2) : Bool) =
    decide (x.pfx = ps.1 ∧ x.sfx = ps.2) := by
  by_cases h : CockroachStorage.Row.isCurrentOf ps x <;>
    simp [CockroachStorage.markDeleted, h]

theorem CockroachStorage.markDeleted_version (ps : Pid)
    (x : CockroachStorage.Row) :
    (CockroachStorage.markDeleted ps x).version = x.version := by
  by_cases h : CockroachStorage.Row.isCurrentOf ps x <;>
    simp [CockroachStorage.markDeleted, h]

theorem CockroachStorage.markDeleted_data (ps : Pid) (x : CockroachStorage.Row) :
    (CockroachStorage.markDeleted ps x).data = x.data := by
  by_cases h : CockroachStorage.Row.isCurrentOf ps x <;>
    simp [CockroachStorage.markDeleted, h]

/-- On the CockroachDB driver, the rows of a pair keep exactly the
contiguous version range `v0 … v0+k` (current row `v0+k`, data columns
in sync) under updates. -/
theorem CockroachStorage.applyUpdates_rows (ps : Pid) (upds : List (RAiD × Nat)) :
    ∀ (st : CockroachStorage.State) (row : CockroachStorage.Row) (v0 k : Nat),
    st.raids.find? (CockroachStorage.Row.isCurrentOf ps) = some row →
    row.isDeleted = false → row.data.version = row.version →
    row.version = v0 + k →
    ((st.raids.filter fun x => decide (x.pfx = ps.1 ∧ x.sfx = ps.2)).map
      CockroachStorage.Row.version) = List.range' v0 (k + 1) →
    (∀ x ∈ st.raids, x.pfx = ps.1 → x.sfx = ps.2 → x.data.version = x.version) →
    ∃ row', (CockroachStorage.applyUpdates ps st upds).raids.find?
        (CockroachStorage.Row.isCurrentOf ps) = some row' ∧
      row'.isDeleted = false ∧ row'.data.version = row'.version ∧
      row'.version = v0 + (k + upds.length) ∧
      (((CockroachStorage.applyUpdates ps st upds).raids.filter
          fun x => decide (x.pfx = ps.1 ∧ x.sfx = ps.2)).map
        CockroachStorage.Row.version) = List.range' v0 (k + upds.length + 1) ∧
      (∀ x ∈ (CockroachStorage.applyUpdates ps st upds).raids,
        x.pfx = ps.1 → x.sfx = ps.2 → x.data.version = x.version) := by
  induction upds with
  | nil =>
      intro st row v0 k h hdel hdv hv hkeys hvals
      exact ⟨row, h, hdel, hdv, by simpa using hv, by simpa using hkeys, hvals⟩
  | cons hd tl ih =>
      intro st row v0 k h hdel hdv hv hkeys hvals
      obtain ⟨r, t⟩ := hd
      have hraids : (CockroachStorage.UpdateRAiD st ps r t).2.raids =
          st.raids.map (CockroachStorage.clearCurrent ps) ++
            [CockroachStorage.newRow ps { r with created := row.createdAt, updated := t, version := row.version + 1 } row.createdAt t] := by
        simp only [CockroachStorage.UpdateRAiD, h]
      have hfind : (CockroachStorage.UpdateRAiD st ps r t).2.raids.find?
          (CockroachStorage.Row.isCurrentOf ps) =
          some (CockroachStorage.newRow ps
            { r with created := row.createdAt, updated := t, version := row.version + 1 } row.createdAt t) := by
        rw [hraids]
        have hfa := CockroachStorage.find?_flipped_append ps st.raids
          (CockroachStorage.newRow ps
            { r with created := row.createdAt, updated := t, version := row.version + 1 } row.createdAt t)
        rw [if_pos (by simp [CockroachStorage.Row.isCurrentOf,
          CockroachStorage.newRow])] at hfa
        exact hfa
      have hkeys2 : (((CockroachStorage.UpdateRAiD st ps r t).2.raids.filter
          fun x => decide (x.pfx = ps.1 ∧ x.sfx = ps.2)).map
          CockroachStorage.Row.version) = List.range' v0 (k + 1 + 1) := by
        rw [hraids, List.filter_append,
          CockroachStorage.filter_pair_map_clearCurrent, List.map_append,
          List.map_map]
        have hcomp : ((st.raids.filter fun x =>
            decide (x.pfx = ps.1 ∧ x.sfx = ps.2)).map
            (CockroachStorage.Row.version ∘ CockroachStorage.clearCurrent ps)) =
            ((st.raids.filter fun x =>
              decide (x.pfx = ps.1 ∧ x.sfx = ps.2)).map
              CockroachStorage.Row.version) := by
          apply List.map_congr_left
          intro a _
          simpa [Function.comp] using CockroachStorage.clearCurrent_version ps a
        rw [hcomp, hkeys]
        have hnr : (([CockroachStorage.newRow ps
            { r with created := row.createdAt, updated := t, version := row.version + 1 } row.createdAt t].filter
            fun x => decide (x.pfx = ps.1 ∧ x.sfx = ps.2)).map
            CockroachStorage.Row.version) = [v0 + (k + 1)] := by
          simp [CockroachStorage.newRow, hv, Nat.add_assoc]
        rw [hnr]
        conv_rhs => rw [List.range'_concat]
        simp
      have hvals2 : ∀ x ∈ (CockroachStorage.UpdateRAiD st ps r t).2.raids,
          x.pfx = ps.1 → x.sfx = ps.2 → x.data.version = x.version := by
        rw [hraids]
        intro x hx hp hs
        rcases List.mem_append.mp hx with hx | hx
        · rcases List.mem_map.mp hx with ⟨y, hy, rfl⟩
          rw [CockroachStorage.clearCurrent_data, CockroachStorage.clearCurrent_version]
          refine hvals y hy ?_ ?_
          · by_cases hc : CockroachStorage.Row.isCurrentOf ps y
            · simpa [CockroachStorage.clearCurrent, hc] using hp
            · simpa [CockroachStorage.clearCurrent, hc] using hp
          · by_cases hc : CockroachStorage.Row.isCurrentOf ps y
            · simpa [CockroachStorage.clearCurrent, hc] using hs
            · simpa [CockroachStorage.clearCurrent, hc] using hs
        · simp only [List.mem_singleton] at hx
          rw [hx]
          simp [CockroachStorage.newRow]
      obtain ⟨row', h1, h2, h3, h4, h5, h6⟩ := ih _ _ v0 (k + 1) hfind rfl rfl
        (by simp [CockroachStorage.newRow, hv]; omega) hkeys2 hvals2
      refine ⟨row', ?_, h2, h3, ?_, ?_, ?_⟩
      · simpa [CockroachStorage.applyUpdates] using h1
      · rw [h4]; simp only [List.length_cons]; omega
      · have : k + 1 + tl.length + 1 = k + (tl.length + 1) + 1 := by omega
        rw [this] at h5
        simpa [CockroachStorage.applyUpdates] using h5
      · intro x hx
        exact h6 x (by simpa [CockroachStorage.applyUpdates] using hx)

theorem pairwise_lt_of_pairwise_le {l : List Nat}
    (h : List.Pairwise (· ≤ ·) l) (hnd : l.Nodup) :
    List.Pairwise (· < ·) l :=
  (h.and hnd).imp fun hab => lt_of_le_of_ne hab.1 hab.2

theorem pairwise_gt_of_pairwise_ge {l : List Nat}
    (h : List.Pairwise (fun a b => b ≤ a) l) (hnd : l.Nodup) :
    List.Pairwise (fun a b => b < a) l :=
  (h.and hnd).imp fun hab => lt_of_le_of_ne hab.1 (fun he => hab.2 he.symm)

/-- After creating a fresh pair and updating it `N` times, the file
driver's history is the current version `N+1` first, followed by the
`N` historical versions (in history-file-name order), and `GetRAiD`
returns the current version `N+1`. -/
theorem FileStorage.history_after_run_file (ps : Pid) (raid : RAiD)
    (upds : List (RAiD × Nat)) (hid : raid.ident = some ps)
    (hv : raid.version = 0) (st : FileStorage.State) (tM tN : Nat)
    (hex : lookupA ps st.raids = none)
    (hhist : (st.history.filter fun e => decide (e.1.1 = ps)) = []) :
    ∃ c tl, FileStorage.GetRAiDHistory
        (FileStorage.applyUpdates ps (FileStorage.CreateRAiD st raid tM tN).2 upds)
        ps = Except.ok (c :: tl) ∧
      tl.length = upds.length ∧
      c.version = upds.length + 1 ∧
      (tl.map RAiD.version).Perm (List.range' 1 upds.length) ∧
      FileStorage.GetRAiD
        (FileStorage.applyUpdates ps (FileStorage.CreateRAiD st raid tM tN).2 upds)
        ps = Except.ok c := by
  have hstate : (FileStorage.CreateRAiD st raid tM tN).2 =
      { st with raids := insertA ps { raid with created := tN, updated := tN, version := 1 } st.raids } := by
    simp [FileStorage.CreateRAiD, hid, hex, hv]
  have hvals0 : ∀ e ∈ st.history, e.1.1 = ps → e.2.version = e.1.2 := by
    intro e he hp
    have : e ∈ st.history.filter fun e => decide (e.1.1 = ps) :=
      List.mem_filter.mpr ⟨he, by simp [hp]⟩
    rw [hhist] at this
    simp at this
  obtain ⟨c', h1, h2, h3, h4⟩ := FileStorage.applyUpdates_history ps upds
    (FileStorage.CreateRAiD st raid tM tN).2
    { raid with created := tN, updated := tN, version := 1 } 1 0
    (by rw [hstate]; exact lookupA_insertA_self ps _ _) (by simp)
    (by rw [hstate]; simpa using hhist) (by rw [hstate]; exact hvals0)
  refine ⟨c', (isort (fun a b => strLeB (FileStorage.histFileName a.1.2)
      (FileStorage.histFileName b.1.2))
      ((FileStorage.applyUpdates ps (FileStorage.CreateRAiD st raid tM tN).2
        upds).history.filter fun e => decide (e.1.1 = ps))).map Prod.snd,
    ?_, ?_, ?_, ?_, ?_⟩
  · simp only [FileStorage.GetRAiDHistory, h1]
  · rw [List.length_map, length_isort]
    have := congrArg List.length h3
    simpa using this
  · omega
  · have hmapmap : (((isort (fun a b => strLeB (FileStorage.histFileName a.1.2)
        (FileStorage.histFileName b.1.2))
        ((FileStorage.applyUpdates ps (FileStorage.CreateRAiD st raid tM tN).2
          upds).history.filter fun e => decide (e.1.1 = ps))).map Prod.snd).map
        RAiD.version) =
        ((isort (fun a b => strLeB (FileStorage.histFileName a.1.2)
          (FileStorage.histFileName b.1.2))
          ((FileStorage.applyUpdates ps (FileStorage.CreateRAiD st raid tM tN).2
            upds).history.filter fun e => decide (e.1.1 = ps))).map
          fun e => e.1.2) := by
      rw [List.map_map]
      apply List.map_congr_left
      intro e he
      have hmem := mem_isort.mp he
      have hef := List.mem_filter.mp hmem
      exact h4 e hef.1 (by simpa using hef.2)
    have h3' : (((FileStorage.applyUpdates ps
        (FileStorage.CreateRAiD st raid tM tN).2 upds).history.filter
        fun e => decide (e.1.1 = ps)).map fun e => e.1.2) =
        List.range' 1 upds.length := by simpa using h3
    rw [hmapmap, ← h3']
    exact (isort_perm _ _).map _
  · simp only [FileStorage.GetRAiD, h1]

/-- After creating a fresh pair and updating it `N` times, the
FoundationDB driver's history is exactly the versions `1 … N+1` in
ascending order, and `GetRAiD` returns the current version `N+1`. -/
theorem FDBStorage.history_after_run_fdb (ps : Pid) (raid : RAiD)
    (upds : List (RAiD × Nat)) (hid : raid.ident = some ps)
    (hv : raid.version = 0) (st : FDBStorage.State) (tN : Nat)
    (hex : lookupA ps st.current = none)
    (hhist : (st.versions.filter fun e => decide (e.1.1 = ps)) = []) :
    ∃ c, (FDBStorage.GetRAiDHistory
        (FDBStorage.applyUpdates ps (FDBStorage.CreateRAiD st raid tN).2 upds)
        ps).map RAiD.version = List.range' 1 (upds.length + 1) ∧
      c.version = upds.length + 1 ∧
      FDBStorage.GetRAiD
        (FDBStorage.applyUpdates ps (FDBStorage.CreateRAiD st raid tN).2 upds)
        ps = Except.ok c := by
  have hfresh : ((ps, 1) : Pid × Nat) ∉ st.versions.map Prod.fst := by
    intro hmem
    rcases List.mem_map.mp hmem with ⟨e, hel, hkey⟩
    have hps : e.1.1 = ps := by rw [hkey]
    have hin : e ∈ st.versions.filter fun e => decide (e.1.1 = ps) :=
      List.mem_filter.mpr ⟨hel, by simp [hps]⟩
    rw [hhist] at hin
    simp at hin
  set r1 := ({ raid with created := tN, updated := tN, version := 1 } : RAiD) with hr1
  set st1 := (FDBStorage.CreateRAiD st raid tN).2 with hst1def
  have hstate : st1 = { st with current := insertA ps r1 st.current, versions := st.versions ++ [((ps, 1), r1)] } := by
    rw [hst1def, hr1]
    simp only [FDBStorage.CreateRAiD, hid, hex, hv]
    simp
    exact insertA_append_of_fresh _ hfresh
  have hcurr : st1.current = insertA ps r1 st.current := by rw [hstate]
  have hvers : st1.versions = st.versions ++ [((ps, 1), r1)] := by rw [hstate]
  have hcur : lookupA ps st1.current = some r1 := by
    rw [hcurr]
    exact lookupA_insertA_self ps _ _
  have hkeys0 : ((st1.versions.filter fun e => decide (e.1.1 = ps)).map
      fun e => e.1.2) = List.range' 1 1 := by
    rw [hvers, List.filter_append, hhist]
    simp [List.range']
  have hvals0 : ∀ e ∈ st1.versions, e.1.1 = ps → e.2.version = e.1.2 := by
    rw [hvers]
    intro e he hps
    rcases List.mem_append.mp he with he | he
    · exfalso
      have hin : e ∈ st.versions.filter fun e => decide (e.1.1 = ps) :=
        List.mem_filter.mpr ⟨he, by simp [hps]⟩
      rw [hhist] at hin
      simp at hin
    · simp only [List.mem_singleton] at he
      rw [he]
  obtain ⟨c', h1, h2, h3, h4⟩ := FDBStorage.applyUpdates_versions ps upds st1 r1 1 0
    hcur (by simp [hr1]) hkeys0 hvals0
  refine ⟨c', ?_, by omega, ?_⟩
  · simp only [FDBStorage.GetRAiDHistory]
    rw [List.map_map]
    have hcongr : (((isort (fun a b => decide (a.1.2 ≤ b.1.2))
        ((FDBStorage.applyUpdates ps st1 upds).versions.filter
          fun e => decide (e.1.1 = ps))).map (RAiD.version ∘ Prod.snd))) =
        ((isort (fun a b => decide (a.1.2 ≤ b.1.2))
        ((FDBStorage.applyUpdates ps st1 upds).versions.filter
          fun e => decide (e.1.1 = ps))).map fun e => e.1.2) := by
      apply List.map_congr_left
      intro e he
      have hef := List.mem_filter.mp (mem_isort.mp he)
      simpa [Function.comp] using h4 e hef.1 (by simpa using hef.2)
    rw [hcongr]
    have h3' : (((FDBStorage.applyUpdates ps st1 upds).versions.filter
        fun e => decide (e.1.1 = ps)).map fun e => e.1.2) =
        List.range' 1 (upds.length + 1) := by
      rw [h3]
      congr 1
      omega
    have hperm : (((isort (fun a b => decide (a.1.2 ≤ b.1.2))
        ((FDBStorage.applyUpdates ps st1 upds).versions.filter
          fun e => decide (e.1.1 = ps))).map fun e => e.1.2)).Perm
        (List.range' 1 (upds.length + 1)) := by
      have hp := (isort_perm (fun a b => decide (a.1.2 ≤ b.1.2))
        ((FDBStorage.applyUpdates ps st1 upds).versions.filter
          fun e => decide (e.1.1 = ps))).map fun e => e.1.2
      rw [h3'] at hp
      exact hp
    have hsorted : List.Pairwise (· ≤ ·)
        (((isort (fun a b => decide (a.1.2 ≤ b.1.2))
        ((FDBStorage.applyUpdates ps st1 upds).versions.filter
          fun e => decide (e.1.1 = ps))).map fun e => e.1.2)) := by
      rw [List.pairwise_map]
      have hp := @pairwise_isort _ (fun a b => decide (a.1.2 ≤ b.1.2))
        (fun a b => by
          rcases Nat.le_total a.1.2 b.1.2 with h | h
          · left; simpa using h
          · right; simpa using h)
        (fun a b c hab hbc => by
          simp only [decide_eq_true_eq] at hab hbc ⊢
          omega)
        ((FDBStorage.applyUpdates ps st1 upds).versions.filter
          fun e => decide (e.1.1 = ps))
      exact hp.imp fun h => by simpa using h
    exact List.eq_of_perm_of_sorted hperm hsorted
      ((List.pairwise_lt_range' 1 (upds.length + 1)).imp fun h => le_of_lt h)
  · simp only [FDBStorage.GetRAiD, h1]

/-- After creating a fresh pair and updating it `N` times, the
CockroachDB driver's history is exactly the versions `N+1 … 1` in
strictly descending order, and `GetRAiD` returns the current version
`N+1`. -/
theorem CockroachStorage.history_after_run_crdb (ps : Pid) (raid : RAiD)
    (upds : List (RAiD × Nat)) (hid : raid.ident = some ps)
    (hv : raid.version = 0) (st : CockroachStorage.State) (tN : Nat)
    (hfr : (st.raids.filter fun x => decide (x.pfx = ps.1 ∧ x.sfx = ps.2)) = []) :
    ∃ c, (CockroachStorage.GetRAiDHistory
        (CockroachStorage.applyUpdates ps
          (CockroachStorage.CreateRAiD st raid tN).2 upds)
        ps).map RAiD.version = (List.range' 1 (upds.length + 1)).reverse ∧
      c.version = upds.length + 1 ∧
      CockroachStorage.GetRAiD
        (CockroachStorage.applyUpdates ps
          (CockroachStorage.CreateRAiD st raid tN).2 upds)
        ps = Except.ok c := by
  have hnotpair : ∀ x ∈ st.raids, x.pfx = ps.1 → x.sfx = ps.2 → False := by
    intro x hx hp hs
    have hin : x ∈ st.raids.filter fun x => decide (x.pfx = ps.1 ∧ x.sfx = ps.2) :=
      List.mem_filter.mpr ⟨hx, by simp [hp, hs]⟩
    rw [hfr] at hin
    simp at hin
  have hany : st.raids.any (CockroachStorage.Row.isCurrentOf ps) = false := by
    rw [List.any_eq_false]
    intro x hx hcur
    have h2 := hcur
    simp only [CockroachStorage.Row.isCurrentOf, decide_eq_true_eq] at h2
    exact hnotpair x hx h2.1 h2.2.1
  set r1 := ({ raid with created := tN, updated := tN, version := 1 } : RAiD) with hr1
  set st1 := (CockroachStorage.CreateRAiD st raid tN).2 with hst1def
  have hstate : st1 = { st with raids := st.raids ++ [CockroachStorage.newRow ps r1 tN tN] } := by
    rw [hst1def, hr1]
    simp [CockroachStorage.CreateRAiD, hid, hv, hany]
  have hfind : st1.raids.find? (CockroachStorage.Row.isCurrentOf ps) =
      some (CockroachStorage.newRow ps r1 tN tN) := by
    simp only [hstate]
    rw [List.find?_append]
    have hnone : st.raids.find? (CockroachStorage.Row.isCurrentOf ps) = none := by
      rw [List.find?_eq_none]
      intro x hx hcur
      have h2 := hcur
      simp only [CockroachStorage.Row.isCurrentOf, decide_eq_true_eq] at h2
      exact hnotpair x hx h2.1 h2.2.1
    rw [hnone]
    simp [List.find?, CockroachStorage.Row.isCurrentOf, CockroachStorage.newRow]
  have hkeys0 : ((st1.raids.filter fun x =>
      decide (x.pfx = ps.1 ∧ x.sfx = ps.2)).map CockroachStorage.Row.version) =
      List.range' 1 1 := by
    simp only [hstate]
    rw [List.filter_append, hfr]
    simp [CockroachStorage.newRow, hr1, List.range']
  have hvals0 : ∀ x ∈ st1.raids, x.pfx = ps.1 → x.sfx = ps.2 →
      x.data.version = x.version := by
    simp only [hstate]
    intro x hx hp hs
    rcases List.mem_append.mp hx with hx | hx
    · exact (hnotpair x hx hp hs).elim
    · simp only [List.mem_singleton] at hx
      rw [hx]
      simp [CockroachStorage.newRow]
  obtain ⟨row', h1, h2, h3, h4, h5, h6⟩ := CockroachStorage.applyUpdates_rows ps upds
    st1 (CockroachStorage.newRow ps r1 tN tN) 1 0 hfind rfl
    (by simp [CockroachStorage.newRow]) (by simp [CockroachStorage.newRow, hr1])
    hkeys0 hvals0
  refine ⟨row'.data, ?_, by omega, CockroachStorage.GetRAiD_of_find_current h1 h2⟩
  simp only [CockroachStorage.GetRAiDHistory]
  rw [List.map_map]
  have hcongr : ((isort (fun a b => decide (b.version ≤ a.version))
      ((CockroachStorage.applyUpdates ps st1 upds).raids.filter
        fun r => decide (r.pfx = ps.1 ∧ r.sfx = ps.2))).map
      (RAiD.version ∘ CockroachStorage.Row.data)) =
      ((isort (fun a b => decide (b.version ≤ a.version))
      ((CockroachStorage.applyUpdates ps st1 upds).raids.filter
        fun r => decide (r.pfx = ps.1 ∧ r.sfx = ps.2))).map
      CockroachStorage.Row.version) := by
    apply List.map_congr_left
    intro x hxmem
    have hxf := List.mem_filter.mp (mem_isort.mp hxmem)
    have hps : x.pfx = ps.1 ∧ x.sfx = ps.2 := by simpa using hxf.2
    simpa [Function.comp] using h6 x hxf.1 hps.1 hps.2
  rw [hcongr]
  have h5' : (((CockroachStorage.applyUpdates ps st1 upds).raids.filter
      fun r => decide (r.pfx = ps.1 ∧ r.sfx = ps.2)).map
      CockroachStorage.Row.version) = List.range' 1 (upds.length + 1) := by
    rw [h5]
    congr 1
    omega
  have hperm : (((isort (fun a b => decide (b.version ≤ a.version))
      ((CockroachStorage.applyUpdates ps st1 upds).raids.filter
        fun r => decide (r.pfx = ps.1 ∧ r.sfx = ps.2))).map
      CockroachStorage.Row.version)).Perm
      ((List.range' 1 (upds.length + 1)).reverse) := by
    have hp := (isort_perm (fun a b => decide (b.version ≤ a.version))
      ((CockroachStorage.applyUpdates ps st1 upds).raids.filter
        fun r => decide (r.pfx = ps.1 ∧ r.sfx = ps.2))).map
      CockroachStorage.Row.version
    rw [h5'] at hp
    exact hp.trans (List.reverse_perm _).symm
  have hsorted : List.Pairwise (fun a b => b ≤ a)
      (((isort (fun a b => decide (b.version ≤ a.version))
      ((CockroachStorage.applyUpdates ps st1 upds).raids.filter
        fun r => decide (r.pfx = ps.1 ∧ r.sfx = ps.2))).map
      CockroachStorage.Row.version)) := by
    rw [List.pairwise_map]
    have hp := @pairwise_isort _ (fun a b => decide (b.version ≤ a.version))
      (fun a b => by
        rcases Nat.le_total a.version b.version with h | h
        · right; simpa using h
        · left; simpa using h)
      (fun a b c hab hbc => by
        simp only [decide_eq_true_eq] at hab hbc ⊢
        omega)
      ((CockroachStorage.applyUpdates ps st1 upds).raids.filter
        fun r => decide (r.pfx = ps.1 ∧ r.sfx = ps.2))
    exact hp.imp fun h => by simpa using h
  haveI : IsAntisymm Nat (fun a b => b ≤ a) := ⟨fun a b x y => le_antisymm y x⟩
  refine List.eq_of_perm_of_sorted hperm hsorted ?_
  have hrev : List.Pairwise (fun a b : Nat => b ≤ a)
      ((List.range' 1 (upds.length + 1)).reverse) := by
    rw [List.pairwise_reverse]
    exact (List.pairwise_lt_range' 1 (upds.length + 1)).imp fun h => le_of_lt h
  exact hrev

/-- C2 counterexample: on the FoundationDB driver, after a create and
one update of the same pair, `getHistory` returns the two versions in
ascending order `[1, 2]` — not in strictly descending version order as
the claim requires of every driver. -/
theorem C2_counterexample_fdb_ascending :
    (FDBStorage.GetRAiDHistory fdbSt2 psA).map RAiD.version = [1, 2] ∧
    ¬ List.Pairwise (fun a b => b < a)
        ((FDBStorage.GetRAiDHistory fdbSt2 psA).map RAiD.version) := by
  constructor
  · decide
  · intro h
    have h12 : (FDBStorage.GetRAiDHistory fdbSt2 psA).map RAiD.version = [1, 2] := by
      decide
    rw [h12] at h
    rcases List.pairwise_cons.mp h with ⟨hlt, _⟩
    exact absurd (hlt 2 (by simp)) (by omega)

/-- C2 (amended): after creating a fresh `(namespace, localId)` pair and
updating it `N` times, every driver's `getHistory` returns exactly the
`N+1` versions numbered `1 … N+1` and `getCurrent` returns version
`N+1`; but the order is driver-dependent: CockroachDB returns strictly
descending version order as claimed, FoundationDB returns strictly
ascending order, and the file driver returns the current version `N+1`
first followed by the `N` older versions in history-file-name order. -/
theorem C2_history_after_updates (ps : Pid) (raid : RAiD)
    (upds : List (RAiD × Nat))
    (hid : raid.ident = some ps) (hv : raid.version = 0) :
    (∀ (st : FileStorage.State) (tM tN : Nat),
      lookupA ps st.raids = none →
      (st.history.filter fun e => decide (e.1.1 = ps)) = [] →
      ∃ c tl, FileStorage.GetRAiDHistory
          (FileStorage.applyUpdates ps (FileStorage.CreateRAiD st raid tM tN).2 upds)
          ps = Except.ok (c :: tl) ∧
        tl.length = upds.length ∧ c.version = upds.length + 1 ∧
        (tl.map RAiD.version).Perm (List.range' 1 upds.length) ∧
        FileStorage.GetRAiD
          (FileStorage.applyUpdates ps (FileStorage.CreateRAiD st raid tM tN).2 upds)
          ps = Except.ok c) ∧
    (∀ (st : FDBStorage.State) (tN : Nat),
      lookupA ps st.current = none →
      (st.versions.filter fun e => decide (e.1.1 = ps)) = [] →
      ∃ c, (FDBStorage.GetRAiDHistory
          (FDBStorage.applyUpdates ps (FDBStorage.CreateRAiD st raid tN).2 upds)
          ps).map RAiD.version = List.range' 1 (upds.length + 1) ∧
        c.version = upds.length + 1 ∧
        FDBStorage.GetRAiD
          (FDBStorage.applyUpdates ps (FDBStorage.CreateRAiD st raid tN).2 upds)
          ps = Except.ok c) ∧
    (∀ (st : CockroachStorage.State) (tN : Nat),
      (st.raids.filter fun x => decide (x.pfx = ps.1 ∧ x.sfx = ps.2)) = [] →
      ∃ c, (CockroachStorage.GetRAiDHistory
          (CockroachStorage.applyUpdates ps
            (CockroachStorage.CreateRAiD st raid tN).2 upds)
          ps).map RAiD.version = (List.range' 1 (upds.length + 1)).reverse ∧
        c.version = upds.length + 1 ∧
        CockroachStorage.GetRAiD
          (CockroachStorage.applyUpdates ps
            (CockroachStorage.CreateRAiD st raid tN).2 upds)
          ps = Except.ok c) :=
  ⟨fun st tM tN hex hhist =>
      FileStorage.history_after_run_file ps raid upds hid hv st tM tN hex hhist,
    fun st tN hex hhist =>
      FDBStorage.history_after_run_fdb ps raid upds hid hv st tN hex hhist,
    fun st tN hfr =>
      CockroachStorage.history_after_run_crdb ps raid upds hid hv st tN hfr⟩

/-- C2 witness: the amended statement at a concrete one-update run on
the FoundationDB driver. -/
theorem C2_history_after_updates_witness :
    ∃ c, (FDBStorage.GetRAiDHistory
        (FDBStorage.applyUpdates psA (FDBStorage.CreateRAiD {} raidP 7).2
          [(raidQ, 9)]) psA).map RAiD.version = List.range' 1 2 ∧
      c.version = 2 ∧
      FDBStorage.GetRAiD
        (FDBStorage.applyUpdates psA (FDBStorage.CreateRAiD {} raidP 7).2
          [(raidQ, 9)]) psA = Except.ok c :=
  (C2_history_after_updates psA raidP [(raidQ, 9)] rfl rfl).2.1 {} 7 rfl rfl

theorem mem_eraseA_key {κ α : Type} [DecidableEq κ] {k : κ}
    {l : List (κ × α)} {e : κ × α} (he : e ∈ eraseA k l) : e.1 ≠ k := by
  have := (List.mem_filter.mp he).2
  simpa using this

theorem applyFilters_mem {raids : List RAiD} {f : Option RAiDFilter} {r : RAiD}
    (h : r ∈ applyFilters raids f) : r ∈ raids := by
  cases f with
  | none => simpa [applyFilters] using h
  | some f =>
      simp only [applyFilters] at h
      exact (List.mem_filter.mp h).1

/-- Every record returned by the file driver's `ListRAiDs` is the value
of some current record file. -/
theorem FileStorage.mem_ListRAiDs_file {st : FileStorage.State}
    {f : Option RAiDFilter} {r : RAiD} (h : r ∈ FileStorage.ListRAiDs st f) :
    ∃ e ∈ st.raids, r = e.2 := by
  have hfil : r ∈ applyFilters ((isort (fun a b => strLeB (FileStorage.raidPath a.1)
      (FileStorage.raidPath b.1)) st.raids).map Prod.snd) f := by
    cases f with
    | none => simpa [FileStorage.ListRAiDs] using h
    | some f =>
        simp only [FileStorage.ListRAiDs] at h
        split_ifs at h with h1 h2 h2
        · exact List.mem_of_mem_drop (List.mem_of_mem_take h)
        · exact List.mem_of_mem_drop h
        · exact List.mem_of_mem_take h
        · exact h
  rcases List.mem_map.mp (applyFilters_mem hfil) with ⟨e, hmem, heq⟩
  exact ⟨e, mem_isort.mp hmem, heq.symm⟩

/-- Every record returned by the FoundationDB driver's `ListRAiDs` is
the value of some `"current"` key. -/
theorem FDBStorage.mem_ListRAiDs_fdb {st : FDBStorage.State}
    {f : Option RAiDFilter} {r : RAiD} (h : r ∈ FDBStorage.ListRAiDs st f) :
    ∃ e ∈ st.current, r = e.2 := by
  have hfil : r ∈ applyFilters ((isort (fun a b =>
      strLtB a.1.1 b.1.1 || (a.1.1 == b.1.1 && strLeB a.1.2 b.1.2))
      st.current).map Prod.snd) f := by
    cases f with
    | none => simpa [FDBStorage.ListRAiDs] using h
    | some f =>
        simp only [FDBStorage.ListRAiDs] at h
        split_ifs at h with h1 h2 h2
        · exact List.mem_of_mem_drop (List.mem_of_mem_take h)
        · exact List.mem_of_mem_drop h
        · exact List.mem_of_mem_take h
        · exact h
  rcases List.mem_map.mp (applyFilters_mem hfil) with ⟨e, hmem, heq⟩
  exact ⟨e, mem_isort.mp hmem, heq.symm⟩

/-- Every record returned by the CockroachDB driver's `ListRAiDs` is the
data column of a current, non-deleted row. -/
theorem CockroachStorage.mem_ListRAiDs_crdb {st : CockroachStorage.State}
    {f : Option RAiDFilter} {r : RAiD}
    (h : r ∈ CockroachStorage.ListRAiDs st f) :
    ∃ x ∈ st.raids, x.isCurrent = true ∧ x.isDeleted = false ∧ r = x.data := by
  cases f with
  | none =>
      simp only [CockroachStorage.ListRAiDs] at h
      rcases List.mem_map.mp h with ⟨x, hx, heq⟩
      have hm := List.mem_filter.mp hx
      have hp := hm.2
      rw [Bool.and_eq_true] at hp
      have hflags := of_decide_eq_true hp.1
      exact ⟨x, hm.1, hflags.1, hflags.2, heq.symm⟩
  | some f =>
      simp only [CockroachStorage.ListRAiDs] at h
      split_ifs at h with h1 h2 h2 <;>
      · rcases List.mem_map.mp h with ⟨x, hx, heq⟩
        have hx2 : x ∈ st.raids.filter (fun r =>
            decide (r.isCurrent = true ∧ r.isDeleted = false) &&
              decide ((f.contributorID = "" ∨ f.contributorID ∈ r.data.contributor) ∧
                (f.organisationID = "" ∨ f.organisationID ∈ r.data.organisation))) := by
          first
          | exact List.mem_of_mem_drop (List.mem_of_mem_take hx)
          | exact List.mem_of_mem_drop hx
          | exact List.mem_of_mem_take hx
          | exact hx
        have hm := List.mem_filter.mp hx2
        have hp := hm.2
        rw [Bool.and_eq_true] at hp
        have hflags := of_decide_eq_true hp.1
        exact ⟨x, hm.1, hflags.1, hflags.2, heq.symm⟩

/-- Every record returned by the CockroachDB driver's `ListPublicRAiDs`
is the data column of a current, non-deleted row. -/
theorem CockroachStorage.mem_ListPublicRAiDs {st : CockroachStorage.State}
    {f : Option RAiDFilter} {r : RAiD}
    (h : r ∈ CockroachStorage.ListPublicRAiDs st f) :
    ∃ x ∈ st.raids, x.isCurrent = true ∧ x.isDeleted = false ∧ r = x.data := by
  cases f with
  | none =>
      simp only [CockroachStorage.ListPublicRAiDs] at h
      rcases List.mem_map.mp h with ⟨x, hx, heq⟩
      have hm := List.mem_filter.mp hx
      have hflags := of_decide_eq_true hm.2
      exact ⟨x, hm.1, hflags.1, hflags.2.1, heq.symm⟩
  | some f =>
      simp only [CockroachStorage.ListPublicRAiDs] at h
      split_ifs at h with h1 h2 h2 <;>
      · rcases List.mem_map.mp h with ⟨x, hx, heq⟩
        have hx2 : x ∈ st.raids.filter (fun r =>
            decide (r.isCurrent = true ∧ r.isDeleted = false ∧
              r.data.accessTypeID = some openAccessTypeID)) := by
          first
          | exact List.mem_of_mem_drop (List.mem_of_mem_take hx)
          | exact List.mem_of_mem_drop hx
          | exact List.mem_of_mem_take hx
          | exact hx
        have hm := List.mem_filter.mp hx2
        have hflags := of_decide_eq_true hm.2
        exact ⟨x, hm.1, hflags.1, hflags.2.1, heq.symm⟩

theorem insSorted_map_comm {α : Type} (f : α → α) (le : α → α → Bool)
    (hf : ∀ a b, le (f a) (f b) = le a b) (a : α) :
    ∀ l : List α, insSorted le (f a) (l.map f) = (insSorted le a l).map f := by
  intro l
  induction l with
  | nil => simp [insSorted]
  | cons b bs ih =>
      simp only [List.map_cons, insSorted, hf a b]
      by_cases h : le a b = true
      · simp [h]
      · simp [h, ih]

theorem isort_map_comm {α : Type} (f : α → α) (le : α → α → Bool)
    (hf : ∀ a b, le (f a) (f b) = le a b) :
    ∀ l : List α, isort le (l.map f) = (isort le l).map f := by
  intro l
  induction l with
  | nil => simp [isort]
  | cons a as ih =>
      simp only [List.map_cons, isort, ih]
      exact insSorted_map_comm f le hf a (isort le as)

theorem CockroachStorage.filter_pair_map_markDeleted (ps : Pid)
    (l : List CockroachStorage.Row) :
    ((l.map (CockroachStorage.markDeleted ps)).filter
      fun x => decide (x.pfx = ps.1 ∧ x.sfx = ps.2)) =
    ((l.filter fun x => decide (x.pfx = ps.1 ∧ x.sfx = ps.2)).map
      (CockroachStorage.markDeleted ps)) := by
  rw [List.filter_map]
  congr 1
  apply List.filter_congr
  intro a _
  simpa [Function.comp] using CockroachStorage.markDeleted_pair ps a

/-- After a CockroachDB soft delete, any row that is still current and
non-deleted cannot carry the deleted pair's identifier. -/
theorem CockroachStorage.row_after_delete_not_pair {st : CockroachStorage.State}
    {ps : Pid} {x : CockroachStorage.Row}
    (hwf : ∀ x ∈ st.raids, x.data.ident = some (x.pfx, x.sfx))
    (hx : x ∈ st.raids.map (CockroachStorage.markDeleted ps))
    (hcurx : x.isCurrent = true) (hdelx : x.isDeleted = false) :
    x.data.ident ≠ some ps := by
  rcases List.mem_map.mp hx with ⟨y, hy, rfl⟩
  by_cases hyc : CockroachStorage.Row.isCurrentOf ps y
  · simp [CockroachStorage.markDeleted, hyc] at hdelx
  · have hyeq : CockroachStorage.markDeleted ps y = y := by
      simp [CockroachStorage.markDeleted, hyc]
    rw [hyeq] at hcurx ⊢
    intro hid
    have hnp : ¬ (y.pfx = ps.1 ∧ y.sfx = ps.2) := by
      intro hp
      exact hyc (by simp [CockroachStorage.Row.isCurrentOf, hp.1, hp.2, hcurx])
    rw [hwf y hy] at hid
    have hps : (y.pfx, y.sfx) = ps := Option.some.inj hid
    exact hnp ⟨congrArg Prod.fst hps, congrArg Prod.snd hps⟩

/-! ### Claim C3: soft delete versus listing and history -/

/-- C3 counterexample: on the file driver, version 1 of the pair is
readable before the soft delete but `getVersion` and `getHistory` both
fail with `NotFound` afterwards — the prior versions are not
"returned unchanged". -/
theorem C3_counterexample_file_reads_fail :
    FileStorage.GetRAiDVersion fileSt2 psA 1 = Except.ok raidP1 ∧
    (FileStorage.DeleteRAiD fileSt2 psA).1 = Except.ok () ∧
    FileStorage.GetRAiDVersion fileSt3 psA 1 = Except.error StorageErr.notFound ∧
    FileStorage.GetRAiDHistory fileSt3 psA = Except.error StorageErr.notFound := by
  refine ⟨?_, ?_, ?_, ?_⟩ <;> decide

/-- C3 (amended): after `softDelete` on a pair with a current version,
all drivers omit the pair from subsequent default `list` and
`listPublic` results; `getHistory` and `getVersion` still return every
prior version unchanged on the CockroachDB and FoundationDB drivers,
but on the file driver both fail with `NotFound` for the deleted pair,
because the renamed current file is gone while the history files are
only reachable through it. -/
theorem C3_softdelete_visibility (ps : Pid) :
    (∀ (st : FileStorage.State) (cur : RAiD),
      lookupA ps st.raids = some cur →
      (∀ e ∈ st.raids, e.2.ident = some e.1) →
      (FileStorage.DeleteRAiD st ps).1 = Except.ok () ∧
      (∀ fl r, r ∈ FileStorage.ListRAiDs (FileStorage.DeleteRAiD st ps).2 fl →
        r.ident ≠ some ps) ∧
      (∀ fl r, r ∈ FileStorage.ListPublicRAiDs (FileStorage.DeleteRAiD st ps).2 fl →
        r.ident ≠ some ps) ∧
      FileStorage.GetRAiDHistory (FileStorage.DeleteRAiD st ps).2 ps =
        Except.error StorageErr.notFound ∧
      (∀ v, FileStorage.GetRAiDVersion (FileStorage.DeleteRAiD st ps).2 ps v =
        Except.error StorageErr.notFound)) ∧
    (∀ (st : FDBStorage.State) (cur : RAiD),
      lookupA ps st.current = some cur →
      (∀ e ∈ st.current, e.2.ident = some e.1) →
      (FDBStorage.DeleteRAiD st ps).1 = Except.ok () ∧
      (∀ fl r, r ∈ FDBStorage.ListRAiDs (FDBStorage.DeleteRAiD st ps).2 fl →
        r.ident ≠ some ps) ∧
      (∀ fl r, r ∈ FDBStorage.ListPublicRAiDs (FDBStorage.DeleteRAiD st ps).2 fl →
        r.ident ≠ some ps) ∧
      FDBStorage.GetRAiDHistory (FDBStorage.DeleteRAiD st ps).2 ps =
        FDBStorage.GetRAiDHistory st ps ∧
      (∀ v, FDBStorage.GetRAiDVersion (FDBStorage.DeleteRAiD st ps).2 ps v =
        FDBStorage.GetRAiDVersion st ps v)) ∧
    (∀ (st : CockroachStorage.State),
      st.raids.any (CockroachStorage.Row.isCurrentOf ps) = true →
      (∀ x ∈ st.raids, x.data.ident = some (x.pfx, x.sfx)) →
      (CockroachStorage.DeleteRAiD st ps).1 = Except.ok () ∧
      (∀ fl r, r ∈ CockroachStorage.ListRAiDs (CockroachStorage.DeleteRAiD st ps).2 fl →
        r.ident ≠ some ps) ∧
      (∀ fl r, r ∈ CockroachStorage.ListPublicRAiDs (CockroachStorage.DeleteRAiD st ps).2 fl →
        r.ident ≠ some ps) ∧
      CockroachStorage.GetRAiDHistory (CockroachStorage.DeleteRAiD st ps).2 ps =
        CockroachStorage.GetRAiDHistory st ps ∧
      (∀ v, CockroachStorage.GetRAiDVersion (CockroachStorage.DeleteRAiD st ps).2 ps v =
        CockroachStorage.GetRAiDVersion st ps v)) := by
  refine ⟨?_, ?_, ?_⟩
  · intro st cur hcur hwf
    have hdel : FileStorage.DeleteRAiD st ps =
        (Except.ok (), { st with raids := eraseA ps st.raids,
                                 deleted := insertA ps cur st.deleted }) := by
      simp [FileStorage.DeleteRAiD, hcur]
    have hraids : (FileStorage.DeleteRAiD st ps).2.raids = eraseA ps st.raids := by
      rw [hdel]
    have hnone : lookupA ps (FileStorage.DeleteRAiD st ps).2.raids = none := by
      rw [hraids]
      exact lookupA_eraseA_self ps st.raids
    refine ⟨by rw [hdel], ?_, ?_, ?_, ?_⟩
    · intro fl r hr hid
      obtain ⟨e, he, heq⟩ := FileStorage.mem_ListRAiDs_file hr
      subst heq
      rw [hraids] at he
      have hne := mem_eraseA_key he
      rw [hwf e (mem_eraseA he)] at hid
      exact hne (Option.some.inj hid)
    · intro fl r hr hid
      have hr' : r ∈ FileStorage.ListRAiDs (FileStorage.DeleteRAiD st ps).2 fl ∧
          r.accessTypeID = some openAccessTypeID := by
        simpa [FileStorage.ListPublicRAiDs] using hr
      obtain ⟨e, he, heq⟩ := FileStorage.mem_ListRAiDs_file hr'.1
      subst heq
      rw [hraids] at he
      have hne := mem_eraseA_key he
      rw [hwf e (mem_eraseA he)] at hid
      exact hne (Option.some.inj hid)
    · simp only [FileStorage.GetRAiDHistory, hnone]
    · intro v
      simp only [FileStorage.GetRAiDVersion, hnone]
  · intro st cur hcur hwf
    have hdel : FDBStorage.DeleteRAiD st ps =
        (Except.ok (), { st with deleted := insertA ps cur st.deleted,
                                 current := eraseA ps st.current }) := by
      simp [FDBStorage.DeleteRAiD, hcur]
    have hcurr : (FDBStorage.DeleteRAiD st ps).2.current = eraseA ps st.current := by
      rw [hdel]
    have hvers : (FDBStorage.DeleteRAiD st ps).2.versions = st.versions := by
      rw [hdel]
    refine ⟨by rw [hdel], ?_, ?_, ?_, ?_⟩
    · intro fl r hr hid
      obtain ⟨e, he, heq⟩ := FDBStorage.mem_ListRAiDs_fdb hr
      subst heq
      rw [hcurr] at he
      have hne := mem_eraseA_key he
      rw [hwf e (mem_eraseA he)] at hid
      exact hne (Option.some.inj hid)
    · intro fl r hr hid
      have hr' : r ∈ FDBStorage.ListRAiDs (FDBStorage.DeleteRAiD st ps).2 fl ∧
          r.accessTypeID = some openAccessTypeID := by
        simpa [FDBStorage.ListPublicRAiDs] using hr
      obtain ⟨e, he, heq⟩ := FDBStorage.mem_ListRAiDs_fdb hr'.1
      subst heq
      rw [hcurr] at he
      have hne := mem_eraseA_key he
      rw [hwf e (mem_eraseA he)] at hid
      exact hne (Option.some.inj hid)
    · simp only [FDBStorage.GetRAiDHistory, hvers]
    · intro v
      simp only [FDBStorage.GetRAiDVersion, hvers]
  · intro st hany hwf
    have hdel : CockroachStorage.DeleteRAiD st ps =
        (Except.ok (), { st with raids := st.raids.map (CockroachStorage.markDeleted ps) }) := by
      simp [CockroachStorage.DeleteRAiD, hany]
    have hraids : (CockroachStorage.DeleteRAiD st ps).2.raids =
        st.raids.map (CockroachStorage.markDeleted ps) := by
      rw [hdel]
    refine ⟨by rw [hdel], ?_, ?_, ?_, ?_⟩
    · intro fl r hr hid
      obtain ⟨x, hx, hcurx, hdelx, heq⟩ := CockroachStorage.mem_ListRAiDs_crdb hr
      subst heq
      rw [hraids] at hx
      exact CockroachStorage.row_after_delete_not_pair hwf hx hcurx hdelx hid
    · intro fl r hr hid
      obtain ⟨x, hx, hcurx, hdelx, heq⟩ := CockroachStorage.mem_ListPublicRAiDs hr
      subst heq
      rw [hraids] at hx
      exact CockroachStorage.row_after_delete_not_pair hwf hx hcurx hdelx hid
    · simp only [CockroachStorage.GetRAiDHistory]
      rw [hraids, CockroachStorage.filter_pair_map_markDeleted,
        isort_map_comm (CockroachStorage.markDeleted ps)
          (fun a b => decide (b.version ≤ a.version))
          (fun a b => by
            simp only [CockroachStorage.markDeleted_version]),
        List.map_map]
      apply List.map_congr_left
      intro x _
      simp [Function.comp, CockroachStorage.markDeleted_data]
    · intro v
      simp only [CockroachStorage.GetRAiDVersion]
      rw [hraids, List.find?_map]
      have hpred : ((fun x => decide (x.pfx = ps.1 ∧ x.sfx = ps.2 ∧ x.version = v)) ∘
          CockroachStorage.markDeleted ps) =
          (fun x : CockroachStorage.Row =>
            decide (x.pfx = ps.1 ∧ x.sfx = ps.2 ∧ x.version = v)) := by
        funext x
        by_cases h : CockroachStorage.Row.isCurrentOf ps x <;>
          simp [Function.comp, CockroachStorage.markDeleted, h]
      rw [hpred]
      cases hfind : st.raids.find? fun x =>
          decide (x.pfx = ps.1 ∧ x.sfx = ps.2 ∧ x.version = v) with
      | none => simp
      | some y => simp [CockroachStorage.markDeleted_data]

/-- C3 witness: the file-driver half of the amended statement at the
concrete two-version store. -/
theorem C3_softdelete_visibility_witness :
    (FileStorage.DeleteRAiD fileSt2 psA).1 = Except.ok () ∧
    FileStorage.GetRAiDHistory (FileStorage.DeleteRAiD fileSt2 psA).2 psA =
      Except.error StorageErr.notFound ∧
    FileStorage.GetRAiDVersion (FileStorage.DeleteRAiD fileSt2 psA).2 psA 1 =
      Except.error StorageErr.notFound :=
  ⟨((C3_softdelete_visibility psA).1 fileSt2 raidQ2 (by decide) (by decide)).1,
   ((C3_softdelete_visibility psA).1 fileSt2 raidQ2 (by decide) (by decide)).2.2.2.1,
   ((C3_softdelete_visibility psA).1 fileSt2 raidQ2 (by decide) (by decide)).2.2.2.2 1⟩

/-- C5 witness: the amended statement at the concrete fixture. -/
theorem C5_create_then_get_current_witness :
    ∃ r, (FileStorage.CreateRAiD {} raidP 5 7).1 = Except.ok r ∧
      FileStorage.GetRAiD (FileStorage.CreateRAiD {} raidP 5 7).2 psA =
        Except.ok r ∧
      r.version = 1 ∧
      lookupA psA (FileStorage.CreateRAiD {} raidP 5 7).2.raids = some r ∧
      (FileStorage.CreateRAiD {} raidP 5 7).2.deleted =
        ({} : FileStorage.State).deleted ∧
      r.payloadFields = raidP.payloadFields :=
  (C5_create_then_get_current psA raidP rfl rfl).1 {} 5 7 (by decide)

end GoRaid
